import Mathlib

/-!
Verification of the channel-backed JSON document store of `bot.py`.

The development shallowly embeds the storage component of the repository
(`bot.py`, lines 88-269): JSON values, the serializer / deserializer used for
snapshot attachments (`json.dumps(..., ensure_ascii=False, indent=2)` and
`json.loads`), the message-channel world state, and the storage operations
`_get_text_channel`, `_ensure_index_message`, `_find_latest_attachment`,
`_load_one`, `_save_one`, `storage_bootstrap`, `_schedule_save`,
`_normalize_warnings`, and the per-dataset cache accessors.

Modelling conventions:
* Python dict values are modelled by the inductive type `Json`; object keys
  are strings (as they are for every JSON-decoded value and every value the
  bot stores).  Numeric values are modelled as integers; the datasets only
  ever hold integers, strings, booleans, lists and objects.
* The network is modelled by a deterministic `World` holding each channel's
  message list (newest first).  Failure cases the claims talk about are
  represented in the data: an unresolvable channel is one missing from the
  world, a malformed payload is one `parse_json` rejects.
* Python's cooperative scheduling is modelled by making every operation an
  explicit state transformer; a fire-and-forget persistence task is a value
  (`Option PendingJob`) that may be run later against the then-current state.
-/

/-- JSON-like values, as produced by `json.loads` and held in the caches. -/
inductive Json where
  | null : Json
  | bool (b : Bool) : Json
  | num (n : Int) : Json
  | str (s : String) : Json
  | arr (xs : List Json) : Json
  | obj (kvs : List (String × Json)) : Json

/-- A JSON object body: what every dataset cache holds (a Python `dict`). -/
abbrev JObj := List (String × Json)

mutual

/-- Structural boolean equality on `Json` (the nested inductive cannot derive it). -/
def Json.beq : Json → Json → Bool
  | .null, .null => true
  | .bool a, .bool b => a == b
  | .num a, .num b => a == b
  | .str a, .str b => a == b
  | .arr xs, .arr ys => Json.beqList xs ys
  | .obj kvs, .obj kws => Json.beqObj kvs kws
  | _, _ => false

/-- Pointwise `Json.beq` on lists. -/
def Json.beqList : List Json → List Json → Bool
  | [], [] => true
  | x :: xs, y :: ys => Json.beq x y && Json.beqList xs ys
  | _, _ => false

/-- Pointwise `Json.beq` on key-value lists. -/
def Json.beqObj : List (String × Json) → List (String × Json) → Bool
  | [], [] => true
  | (k, v) :: xs, (l, w) :: ys => k == l && Json.beq v w && Json.beqObj xs ys
  | _, _ => false

end

theorem Json.beqList_iff {xs : List Json}
    (ih : ∀ x ∈ xs, ∀ y, Json.beq x y = true ↔ x = y) :
    ∀ ys, Json.beqList xs ys = true ↔ xs = ys := by
  induction xs with
  | nil => intro ys; cases ys <;> simp [Json.beqList]
  | cons x xs ihx =>
    intro ys
    cases ys with
    | nil => simp [Json.beqList]
    | cons y ys =>
      simp [Json.beqList, ih x (by simp) y,
        ihx (fun a ha b => ih a (by simp [ha]) b) ys]

theorem Json.beqObj_iff {xs : List (String × Json)}
    (ih : ∀ kv ∈ xs, ∀ y, Json.beq kv.2 y = true ↔ kv.2 = y) :
    ∀ ys, Json.beqObj xs ys = true ↔ xs = ys := by
  induction xs with
  | nil => intro ys; cases ys <;> simp [Json.beqObj]
  | cons kv xs ihx =>
    intro ys
    cases ys with
    | nil => simp [Json.beqObj]
    | cons lw ys =>
      obtain ⟨k, v⟩ := kv
      obtain ⟨l, w⟩ := lw
      simp [Json.beqObj, ih (k, v) (by simp) w,
        ihx (fun a ha b => ih a (by simp [ha]) b) ys, Prod.ext_iff]

theorem Json.beq_iff : ∀ (a b : Json), Json.beq a b = true ↔ a = b := by
  have main : ∀ n (a : Json), sizeOf a ≤ n → ∀ (b : Json), Json.beq a b = true ↔ a = b := by
    intro n
    induction n with
    | zero => intro a h; cases a <;> simp at h
    | succ n ih =>
      intro a h b
      cases a with
      | arr xs =>
        cases b <;> simp [Json.beq]
        exact Json.beqList_iff (fun x hx y => ih x
          (by have := List.sizeOf_lt_of_mem hx; simp at h; omega) y) _
      | obj kvs =>
        cases b <;> simp [Json.beq]
        exact Json.beqObj_iff (fun kv hkv y => ih kv.2
          (by have h1 := List.sizeOf_lt_of_mem hkv
              obtain ⟨k, v⟩ := kv
              simp at h h1 ⊢; omega) y) _
      | null => cases b <;> simp [Json.beq]
      | bool a => cases b <;> simp [Json.beq]
      | num a => cases b <;> simp [Json.beq]
      | str a => cases b <;> simp [Json.beq]
  intro a b
  exact main (sizeOf a) a le_rfl b

instance : DecidableEq Json := fun a b => decidable_of_iff _ (Json.beq_iff a b)

/-- Character class used by both the serializer and the parser: JSON whitespace. -/
def is_ws (c : Char) : Bool :=
  c.toNat == 32 || c.toNat == 10 || c.toNat == 9 || c.toNat == 13

/-- ASCII decimal digit test. -/
def is_digit (c : Char) : Bool := 48 ≤ c.toNat && c.toNat ≤ 57

/-- Numeric value of an ASCII digit. -/
def digit_val (c : Char) : Nat := c.toNat - 48

/-- ASCII digit for a value below ten. -/
def digit_char (d : Nat) : Char := Char.ofNat (48 + d)

/-- Lower-case hexadecimal digit for a value below sixteen. -/
def hex_char (d : Nat) : Char :=
  if d < 10 then Char.ofNat (48 + d) else Char.ofNat (87 + d)

/-- Numeric value of a hexadecimal digit, upper or lower case. -/
def hex_val (c : Char) : Option Nat :=
  if 48 ≤ c.toNat ∧ c.toNat ≤ 57 then some (c.toNat - 48)
  else if 97 ≤ c.toNat ∧ c.toNat ≤ 102 then some (c.toNat - 87)
  else if 65 ≤ c.toNat ∧ c.toNat ≤ 70 then some (c.toNat - 55)
  else none

/-- Worker for `nat_chars`: the fuel argument only forces structural recursion
and is always supplied large enough to be inexhaustible. -/
def nat_chars_fuel : Nat → Nat → List Char
  | 0, _ => []
  | fuel + 1, n =>
      if n < 10 then [digit_char n]
      else nat_chars_fuel fuel (n / 10) ++ [digit_char (n % 10)]

/-- Decimal digits of a natural number, most significant first (Python `repr`). -/
def nat_chars (n : Nat) : List Char := nat_chars_fuel (n + 1) n

theorem nat_chars_fuel_stable : ∀ f1 f2 n, n < f1 → n < f2 →
    nat_chars_fuel f1 n = nat_chars_fuel f2 n := by
  intro f1
  induction f1 with
  | zero => intro f2 n h1; omega
  | succ f1 ih =>
    intro f2 n h1 h2
    cases f2 with
    | zero => omega
    | succ f2 =>
      simp only [nat_chars_fuel]
      by_cases h : n < 10
      · simp [h]
      · simp only [h, if_false]
        rw [ih f2 (n / 10) (by omega) (by omega)]

theorem nat_chars_eq (n : Nat) : nat_chars n =
    if n < 10 then [digit_char n] else nat_chars (n / 10) ++ [digit_char (n % 10)] := by
  show nat_chars_fuel (n + 1) n = _
  rw [nat_chars_fuel]
  by_cases h : n < 10
  · simp [h]
  · simp only [h, if_false]
    rw [nat_chars_fuel_stable n (n / 10 + 1) (n / 10) (by omega) (by omega)]
    rfl

/-- Decimal rendering of an integer, as Python `repr` of an `int`. -/
def int_chars (n : Int) : List Char :=
  if n < 0 then '-' :: nat_chars n.natAbs else nat_chars n.natAbs

/-- Escape of one character inside a JSON string literal, following the table
used by `json.dumps` with `ensure_ascii=False`: the backslash, the quote and
the named control characters get two-character escapes, any other control
character becomes a `\u00xx` escape, and everything else is emitted as is. -/
def esc_char (c : Char) : List Char :=
  if c == '"' then ['\\', '"']
  else if c == '\\' then ['\\', '\\']
  else if c == '\n' then ['\\', 'n']
  else if c == '\t' then ['\\', 't']
  else if c == '\r' then ['\\', 'r']
  else if c.toNat == 8 then ['\\', 'b']
  else if c.toNat == 12 then ['\\', 'f']
  else if c.toNat < 32 then
    ['\\', 'u', '0', '0', hex_char (c.toNat / 16), hex_char (c.toNat % 16)]
  else [c]

/-- Escape of a whole string body. -/
def esc : List Char → List Char
  | [] => []
  | c :: cs => esc_char c ++ esc cs

/-- Serialized JSON string literal, quotes included. -/
def ser_string (s : String) : List Char := '"' :: esc s.data ++ ['"']

/-- Indentation emitted by `json.dumps(..., indent=2)` at nesting depth `d`. -/
def ind (d : Nat) : List Char := List.replicate (2 * d) ' '

theorem Json.one_le_sizeOf : ∀ v : Json, 1 ≤ sizeOf v := by
  intro v; cases v <;> simp_arith

mutual

/-- Serialization of a value at depth `d`, following
`json.dumps(data, ensure_ascii=False, indent=2)`: scalars are rendered
compactly, non-empty containers put every item on its own indented line, and
the separators are `","` and `": "`. -/
def ser_val (d : Nat) : Json → List Char
  | .null => ['n', 'u', 'l', 'l']
  | .bool true => 't' :: ['r', 'u', 'e']
  | .bool false => 'f' :: ['a', 'l', 's', 'e']
  | .num n => int_chars n
  | .str s => ser_string s
  | .arr [] => ['[', ']']
  | .arr (x :: xs) =>
      '[' :: '\n' :: ind (d + 1) ++ ser_items (d + 1) (x :: xs) ++ '\n' :: ind d ++ [']']
  | .obj [] => ['\x7b', '\x7d']
  | .obj (kv :: kvs) =>
      '\x7b' :: '\n' :: ind (d + 1) ++ ser_members (d + 1) (kv :: kvs) ++ '\n' :: ind d ++ ['\x7d']
termination_by structural v => v

/-- Comma-and-newline separated array items at depth `d`. -/
def ser_items (d : Nat) : List Json → List Char
  | [] => []
  | [x] => ser_val d x
  | x :: y :: ys => ser_val d x ++ ',' :: '\n' :: ind d ++ ser_items d (y :: ys)
termination_by structural xs => xs

/-- Comma-and-newline separated object members at depth `d`. -/
def ser_members (d : Nat) : List (String × Json) → List Char
  | [] => []
  | [(k, v)] => ser_string k ++ ':' :: ' ' :: ser_val d v
  | (k, v) :: lw :: kvs =>
      (ser_string k ++ ':' :: ' ' :: ser_val d v) ++
        ',' :: '\n' :: ind d ++ ser_members d (lw :: kvs)
termination_by structural kvs => kvs

end

/-- Top-level serializer: `json.dumps(data, ensure_ascii=False, indent=2)`
starts at depth zero. -/
def ser_json (v : Json) : List Char := ser_val 0 v

/-- Leading-whitespace removal, as the decoder's `_w(...)` skip. -/
def skip_ws : List Char → List Char
  | [] => []
  | c :: rest => if is_ws c then skip_ws rest else c :: rest

/-- Longest digit run, folded onto an accumulator, with the rest of the input. -/
def parse_digits (acc : Nat) : List Char → Nat × List Char
  | [] => (acc, [])
  | c :: rest =>
      if is_digit c then parse_digits (acc * 10 + digit_val c) rest else (acc, c :: rest)

/-- Unescape table of two-character escapes inside a JSON string literal. -/
def unesc_char (c : Char) : Option Char :=
  if c == '"' then some '"'
  else if c == '\\' then some ('\\' : Char)
  else if c == '/' then some ('/' : Char)
  else if c == 'b' then some (Char.ofNat 8)
  else if c == 'f' then some (Char.ofNat 12)
  else if c == 'n' then some '\n'
  else if c == 'r' then some '\r'
  else if c == 't' then some '\t'
  else none

/-- Body of a JSON string literal: consumes characters up to the closing
quote, resolving escapes, and returns the body with the rest of the input. -/
def parse_string_chars : List Char → Option (List Char × List Char)
  | [] => none
  | c :: rest =>
      if c == '"' then some ([], rest)
      else if c == '\\' then
        match rest with
        | [] => none
        | e :: rest2 =>
            if e == 'u' then
              match rest2 with
              | h1 :: h2 :: h3 :: h4 :: rest3 =>
                  match hex_val h1, hex_val h2, hex_val h3, hex_val h4 with
                  | some a, some b, some c3, some d4 =>
                      match parse_string_chars rest3 with
                      | some (cs, r) =>
                          some (Char.ofNat (((a * 16 + b) * 16 + c3) * 16 + d4) :: cs, r)
                      | none => none
                  | _, _, _, _ => none
              | _ => none
            else
              match unesc_char e with
              | some u =>
                  match parse_string_chars rest2 with
                  | some (cs, r) => some (u :: cs, r)
                  | none => none
              | none => none
      else
        match parse_string_chars rest with
        | some (cs, r) => some (c :: cs, r)
        | none => none
termination_by structural l => l

mutual

/-- Recursive-descent JSON value, as `json.loads` sees it: leading whitespace
is skipped, then the first character dispatches.  The fuel argument bounds the
recursion depth; `parse_json` supplies more fuel than any input can use. -/
def parse_val : Nat → List Char → Option (Json × List Char)
  | 0, _ => none
  | fuel + 1, l =>
      match skip_ws l with
      | [] => none
      | c :: rest =>
          if c == '\x7b' then parse_obj fuel rest
          else if c == '[' then parse_arr fuel rest
          else if c == '"' then
            match parse_string_chars rest with
            | some (cs, r) => some (Json.str (String.mk cs), r)
            | none => none
          else if c == 't' then
            match rest with
            | 'r' :: 'u' :: 'e' :: r => some (Json.bool true, r)
            | _ => none
          else if c == 'f' then
            match rest with
            | 'a' :: 'l' :: 's' :: 'e' :: r => some (Json.bool false, r)
            | _ => none
          else if c == 'n' then
            match rest with
            | 'u' :: 'l' :: 'l' :: r => some (Json.null, r)
            | _ => none
          else if c == '-' then
            match rest with
            | d :: r =>
                if is_digit d then
                  match parse_digits (digit_val d) r with
                  | (m, r2) => some (Json.num (-(m : Int)), r2)
                else none
            | [] => none
          else if is_digit c then
            match parse_digits (digit_val c) rest with
            | (m, r2) => some (Json.num (m : Int), r2)
          else none
termination_by structural fuel _ => fuel

/-- Array tail, input positioned just after the opening bracket. -/
def parse_arr : Nat → List Char → Option (Json × List Char)
  | 0, _ => none
  | fuel + 1, l =>
      match skip_ws l with
      | ']' :: r => some (Json.arr [], r)
      | _ => parse_items fuel [] l
termination_by structural fuel _ => fuel

/-- Items of a non-empty array, accumulating parsed elements in order. -/
def parse_items : Nat → List Json → List Char → Option (Json × List Char)
  | 0, _, _ => none
  | fuel + 1, acc, l =>
      match parse_val fuel l with
      | none => none
      | some (v, r) =>
          match skip_ws r with
          | ',' :: r2 => parse_items fuel (acc ++ [v]) r2
          | ']' :: r2 => some (Json.arr (acc ++ [v]), r2)
          | _ => none
termination_by structural fuel _ _ => fuel

/-- Object tail, input positioned just after the opening brace. -/
def parse_obj : Nat → List Char → Option (Json × List Char)
  | 0, _ => none
  | fuel + 1, l =>
      match skip_ws l with
      | '\x7d' :: r => some (Json.obj [], r)
      | _ => parse_members fuel [] l
termination_by structural fuel _ => fuel

/-- Members of a non-empty object, accumulating parsed pairs in order. -/
def parse_members : Nat → List (String × Json) → List Char → Option (Json × List Char)
  | 0, _, _ => none
  | fuel + 1, acc, l =>
      match skip_ws l with
      | '"' :: r0 =>
          match parse_string_chars r0 with
          | none => none
          | some (k, r1) =>
              match skip_ws r1 with
              | ':' :: r2 =>
                  match parse_val fuel r2 with
                  | none => none
                  | some (v, r3) =>
                      match skip_ws r3 with
                      | ',' :: r4 => parse_members fuel (acc ++ [(String.mk k, v)]) r4
                      | '\x7d' :: r4 => some (Json.obj (acc ++ [(String.mk k, v)]), r4)
                      | _ => none
              | _ => none
      | _ => none
termination_by structural fuel _ _ => fuel

end

/-- Top-level deserializer, as `json.loads`: one value, then only whitespace.
The fuel exceeds twice the input length, which bounds any descent because
every recursive step consumes input. -/
def parse_json (l : List Char) : Option Json :=
  match parse_val (2 * l.length + 2) l with
  | some (v, rest) => if skip_ws rest = [] then some v else none
  | none => none

/-- Convenience predicate: the input does not begin with a decimal digit, so a
number parse that stops here is complete. -/
def nondigit_head : List Char → Prop
  | [] => True
  | c :: _ => is_digit c = false

theorem skip_ws_all {l : List Char} (h : ∀ c ∈ l, is_ws c = true) :
    ∀ r, skip_ws (l ++ r) = skip_ws r := by
  induction l with
  | nil => intro r; rfl
  | cons c cs ihc =>
    intro r
    simp only [List.cons_append, skip_ws, h c (by simp)]
    exact ihc (fun a ha => h a (by simp [ha])) r

theorem skip_ws_nws {c : Char} (h : is_ws c = false) (r : List Char) :
    skip_ws (c :: r) = c :: r := by
  simp [skip_ws, h]

theorem ind_all_ws (d : Nat) : ∀ c ∈ ind d, is_ws c = true := by
  intro c hc
  simp [ind] at hc
  simp [hc.2, is_ws]

theorem digit_char_toNat {d : Nat} (h : d < 10) : (digit_char d).toNat = 48 + d := by
  interval_cases d <;> decide

theorem is_digit_digit_char {d : Nat} (h : d < 10) : is_digit (digit_char d) = true := by
  simp [is_digit, digit_char_toNat h]; omega

theorem digit_val_digit_char {d : Nat} (h : d < 10) : digit_val (digit_char d) = d := by
  simp [digit_val, digit_char_toNat h]

theorem nat_chars_digits : ∀ n, ∀ c ∈ nat_chars n, is_digit c = true := by
  intro n
  induction n using Nat.strong_induction_on with
  | _ n ih =>
    intro c hc
    rw [nat_chars_eq] at hc
    by_cases h : n < 10
    · simp [h] at hc
      simp [hc, is_digit_digit_char h]
    · simp [h] at hc
      rcases hc with hc | hc
      · exact ih (n / 10) (Nat.div_lt_self (by omega) (by omega)) c hc
      · simp [hc, is_digit_digit_char (Nat.mod_lt n (by omega))]

theorem nat_chars_ne_nil (n : Nat) : nat_chars n ≠ [] := by
  rw [nat_chars_eq]
  by_cases h : n < 10 <;> simp [h]

theorem is_ws_of_digit_false {c : Char} (h : is_digit c = true) : is_ws c = false := by
  simp [is_digit] at h
  simp [is_ws]
  omega

theorem is_ws_of_not_ws {c : Char} (h : ¬ (c.toNat = 32 ∨ c.toNat = 10 ∨ c.toNat = 9 ∨ c.toNat = 13)) :
    is_ws c = false := by
  simp [is_ws]
  omega

theorem parse_digits_append {ds : List Char} (h : ∀ c ∈ ds, is_digit c = true) :
    ∀ acc r, parse_digits acc (ds ++ r) =
      parse_digits (ds.foldl (fun a c => a * 10 + digit_val c) acc) r := by
  induction ds with
  | nil => intro acc r; rfl
  | cons c cs ihc =>
    intro acc r
    simp only [List.cons_append, parse_digits, h c (by simp), if_true, List.foldl_cons]
    exact ihc (fun a ha => h a (by simp [ha])) _ r

theorem parse_digits_stop {r : List Char} (h : nondigit_head r) (acc : Nat) :
    parse_digits acc r = (acc, r) := by
  cases r with
  | nil => rfl
  | cons c cs => simp [parse_digits, nondigit_head] at h ⊢; simp [h]

theorem foldl_nat_chars : ∀ n acc, (nat_chars n).foldl (fun a c => a * 10 + digit_val c) acc =
    acc * 10 ^ (nat_chars n).length + n := by
  intro n
  induction n using Nat.strong_induction_on with
  | _ n ih =>
    intro acc
    rw [nat_chars_eq]
    by_cases h : n < 10
    · simp [h, digit_val_digit_char h]
    · simp only [h, if_false, List.foldl_append, List.foldl_cons, List.foldl_nil,
        List.length_append, List.length_cons, List.length_nil]
      rw [ih (n / 10) (Nat.div_lt_self (by omega) (by omega)) acc]
      rw [digit_val_digit_char (Nat.mod_lt n (by omega))]
      rw [pow_succ]
      have : n / 10 * 10 + n % 10 = n := by omega
      ring_nf
      omega

theorem parse_nat_run (n : Nat) {r : List Char} (h : nondigit_head r) :
    ∃ d ds, nat_chars n = d :: ds ∧ is_digit d = true ∧
      parse_digits (digit_val d) (ds ++ r) = (n, r) := by
  obtain ⟨d, ds, hds⟩ : ∃ d ds, nat_chars n = d :: ds := by
    cases hn : nat_chars n with
    | nil => exact absurd hn (nat_chars_ne_nil n)
    | cons d ds => exact ⟨d, ds, rfl⟩
  refine ⟨d, ds, hds, nat_chars_digits n d (by simp [hds]), ?_⟩
  have hall : ∀ c ∈ ds, is_digit c = true := fun c hc => nat_chars_digits n c (by simp [hds, hc])
  rw [parse_digits_append hall, parse_digits_stop h]
  have := foldl_nat_chars n 0
  rw [hds] at this
  simp only [List.foldl_cons] at this
  simp only [Nat.zero_mul, Nat.zero_add] at this
  rw [this]

theorem hex_val_hex_char {d : Nat} (h : d < 16) : hex_val (hex_char d) = some d := by
  interval_cases d <;> decide

theorem psc_close (r : List Char) : parse_string_chars ('"' :: r) = some ([], r) := by
  rw [parse_string_chars.eq_def]
  simp

theorem psc_esc2 (e u : Char) (he : e ≠ 'u') (hu : unesc_char e = some u) (r : List Char) :
    parse_string_chars ('\\' :: e :: r) =
      match parse_string_chars r with
      | some (cs, r2) => some (u :: cs, r2)
      | none => none := by
  rw [parse_string_chars.eq_def]
  simp [beq_eq_false_iff_ne.mpr he, hu]

theorem psc_u {h1 h2 h3 h4 : Char} {a b c3 d4 : Nat}
    (e1 : hex_val h1 = some a) (e2 : hex_val h2 = some b)
    (e3 : hex_val h3 = some c3) (e4 : hex_val h4 = some d4) (r : List Char) :
    parse_string_chars ('\\' :: 'u' :: h1 :: h2 :: h3 :: h4 :: r) =
      match parse_string_chars r with
      | some (cs, r2) => some (Char.ofNat (((a * 16 + b) * 16 + c3) * 16 + d4) :: cs, r2)
      | none => none := by
  rw [parse_string_chars.eq_def]
  simp [e1, e2, e3, e4]

theorem psc_plain {c : Char} (h1 : c ≠ '"') (h2 : c ≠ '\\') (r : List Char) :
    parse_string_chars (c :: r) =
      match parse_string_chars r with
      | some (cs, r2) => some (c :: cs, r2)
      | none => none := by
  rw [parse_string_chars.eq_def]
  simp [beq_eq_false_iff_ne.mpr h1, beq_eq_false_iff_ne.mpr h2]

theorem parse_esc_round : ∀ (l : List Char) (r : List Char),
    parse_string_chars (esc l ++ '"' :: r) = some (l, r) := by
  intro l
  induction l with
  | nil => intro r; simp [esc, psc_close]
  | cons c cs ih =>
    intro r
    simp only [esc, List.append_assoc]
    by_cases h1 : c = '"'
    · subst h1
      simp [esc_char, psc_esc2 '"' '"' (by decide) (by decide), ih r]
    by_cases h2 : c = '\\'
    · subst h2
      simp [esc_char, psc_esc2 '\\' '\\' (by decide) (by decide), ih r]
    by_cases h3 : c = '\n'
    · subst h3
      simp [esc_char, psc_esc2 'n' '\n' (by decide) (by decide), ih r]
    by_cases h4 : c = '\t'
    · subst h4
      simp [esc_char, psc_esc2 't' '\t' (by decide) (by decide), ih r]
    by_cases h5 : c = '\r'
    · subst h5
      simp [esc_char, psc_esc2 'r' '\r' (by decide) (by decide), ih r]
    by_cases h6 : c.toNat = 8
    · have hc : c = Char.ofNat 8 := by rw [← h6, Char.ofNat_toNat]
      subst hc
      simp [esc_char, psc_esc2 'b' (Char.ofNat 8) (by decide) (by decide), ih r]
    by_cases h7 : c.toNat = 12
    · have hc : c = Char.ofNat 12 := by rw [← h7, Char.ofNat_toNat]
      subst hc
      simp [esc_char, psc_esc2 'f' (Char.ofNat 12) (by decide) (by decide), ih r]
    by_cases h8 : c.toNat < 32
    · have hesc : esc_char c =
          ['\\', 'u', '0', '0', hex_char (c.toNat / 16), hex_char (c.toNat % 16)] := by
        rw [esc_char]
        rw [if_neg (by simp [h1]), if_neg (by simp [h2]), if_neg (by simp [h3]),
          if_neg (by simp [h4]), if_neg (by simp [h5]), if_neg (by simp [h6]),
          if_neg (by simp [h7]), if_pos (by simp [h8])]
      rw [hesc]
      simp only [List.cons_append, List.nil_append]
      rw [psc_u (show hex_val '0' = some 0 by decide) (show hex_val '0' = some 0 by decide)
        (hex_val_hex_char (by omega)) (hex_val_hex_char (by omega)), ih r]
      have harith : ((0 * 16 + 0) * 16 + c.toNat / 16) * 16 + c.toNat % 16 = c.toNat := by
        omega
      simp only [harith, Char.ofNat_toNat]
    · have hesc : esc_char c = [c] := by
        rw [esc_char]
        rw [if_neg (by simp [h1]), if_neg (by simp [h2]), if_neg (by simp [h3]),
          if_neg (by simp [h4]), if_neg (by simp [h5]), if_neg (by simp [h6]),
          if_neg (by simp [h7]), if_neg (by simp [h8])]
      rw [hesc]
      simp only [List.cons_append, List.nil_append]
      rw [psc_plain h1 h2, ih r]

theorem parse_ser_string (s : String) (r : List Char) :
    parse_string_chars (esc s.data ++ '"' :: r) = some (s.data, r) :=
  parse_esc_round s.data r

theorem mk_data (s : String) : String.mk s.data = s := rfl

mutual

/-- Size measure (one per node, constants cost one) used as parser fuel bound. -/
def Json.msize : Json → Nat
  | .null => 1
  | .bool _ => 1
  | .num _ => 1
  | .str _ => 1
  | .arr xs => 1 + Json.msizeList xs
  | .obj kvs => 1 + Json.msizeObj kvs
termination_by structural v => v

/-- List form of `Json.msize`. -/
def Json.msizeList : List Json → Nat
  | [] => 1
  | x :: xs => 1 + Json.msize x + Json.msizeList xs
termination_by structural xs => xs

/-- Key-value form of `Json.msize`. -/
def Json.msizeObj : List (String × Json) → Nat
  | [] => 1
  | (_, v) :: kvs => 1 + Json.msize v + Json.msizeObj kvs
termination_by structural kvs => kvs

end

theorem Json.one_le_msize : ∀ v : Json, 1 ≤ Json.msize v := by
  intro v; cases v <;> simp [Json.msize]

theorem Json.one_le_msizeList : ∀ xs : List Json, 1 ≤ Json.msizeList xs := by
  intro xs; cases xs <;> simp [Json.msizeList] <;> omega

theorem Json.one_le_msizeObj : ∀ kvs : List (String × Json), 1 ≤ Json.msizeObj kvs := by
  intro kvs
  cases kvs with
  | nil => simp [Json.msizeObj]
  | cons kv kvs => obtain ⟨k, v⟩ := kv; simp [Json.msizeObj]; omega

theorem skip_to_head {wsl : List Char} (hws : ∀ c ∈ wsl, is_ws c = true)
    {c : Char} (hc : is_ws c = false) (r : List Char) :
    skip_ws (wsl ++ c :: r) = c :: r := by
  rw [skip_ws_all hws, skip_ws_nws hc]

theorem nondigit_head_ws {wsl : List Char} (hws : ∀ c ∈ wsl, is_ws c = true)
    {c : Char} (hc : is_digit c = false) (r : List Char) :
    nondigit_head (wsl ++ c :: r) := by
  cases wsl with
  | nil => exact hc
  | cons w ws =>
      have := hws w (by simp)
      simp only [List.cons_append, nondigit_head]
      simp [is_ws] at this
      simp [is_digit]
      omega

theorem digit_not_special {c : Char} (h : is_digit c = true) :
    (c == '\x7b') = false ∧ (c == '[') = false ∧ (c == '"') = false ∧
    (c == 't') = false ∧ (c == 'f') = false ∧ (c == 'n') = false ∧ (c == '-') = false := by
  refine ⟨?_, ?_, ?_, ?_, ?_, ?_, ?_⟩ <;>
    (rw [beq_eq_false_iff_ne]; intro he; subst he; exact absurd h (by decide))

theorem digit_ne_rbracket {c : Char} (h : is_digit c = true) : c ≠ ']' := by
  intro he; subst he; exact absurd h (by decide)

theorem nat_chars_head (n : Nat) :
    ∃ c cs, nat_chars n = c :: cs ∧ is_digit c = true := by
  cases hn : nat_chars n with
  | nil => exact absurd hn (nat_chars_ne_nil n)
  | cons c cs => exact ⟨c, cs, rfl, nat_chars_digits n c (by simp [hn])⟩

theorem ser_val_head (d : Nat) (v : Json) :
    ∃ c cs, ser_val d v = c :: cs ∧ is_ws c = false ∧ c ≠ ']' := by
  cases v with
  | null => exact ⟨'n', _, rfl, by decide, by decide⟩
  | bool b => cases b
              · exact ⟨'f', _, rfl, by decide, by decide⟩
              · exact ⟨'t', _, rfl, by decide, by decide⟩
  | str s => exact ⟨'"', _, rfl, by decide, by decide⟩
  | num n =>
      by_cases hn : n < 0
      · exact ⟨'-', nat_chars n.natAbs ++ [], by simp [ser_val, int_chars, hn], by decide,
          by decide⟩
      · obtain ⟨c, cs, hc, hd⟩ := nat_chars_head n.natAbs
        exact ⟨c, cs, by simp [ser_val, int_chars, hn, hc],
          is_ws_of_digit_false hd, digit_ne_rbracket hd⟩
  | arr xs =>
      cases xs with
      | nil => exact ⟨'[', _, rfl, by decide, by decide⟩
      | cons x xs => exact ⟨'[', _, rfl, by decide, by decide⟩
  | obj kvs =>
      cases kvs with
      | nil => exact ⟨'\x7b', _, rfl, by decide, by decide⟩
      | cons kv kvs => exact ⟨'\x7b', _, rfl, by decide, by decide⟩

theorem ser_items_factor (d : Nat) (x : Json) (xs : List Json) :
    ∃ t, ser_items d (x :: xs) = ser_val d x ++ t := by
  cases xs with
  | nil => exact ⟨[], by simp [ser_items]⟩
  | cons y ys =>
      exact ⟨',' :: '\n' :: ind d ++ ser_items d (y :: ys), by simp [ser_items]⟩

theorem nondigit_head_cons {c : Char} (h : is_digit c = false) (rest : List Char) :
    nondigit_head (c :: rest) := h

theorem ser_members_head (d : Nat) (kv : String × Json) (kvs : List (String × Json)) :
    ∃ t, ser_members d (kv :: kvs) = '"' :: t := by
  obtain ⟨k, v⟩ := kv
  cases kvs with
  | nil =>
      exact ⟨esc k.data ++ '"' :: ':' :: ' ' :: ser_val d v, by simp [ser_members, ser_string]⟩
  | cons lw kvs =>
      exact ⟨esc k.data ++ '"' :: ':' :: ' ' ::
        (ser_val d v ++ ',' :: '\n' :: (ind d ++ ser_members d (lw :: kvs))),
        by simp [ser_members, ser_string]⟩

theorem cons_ind_ws (d : Nat) : ∀ c ∈ '\n' :: ind d, is_ws c = true := by
  intro c hc
  simp at hc
  rcases hc with hc | hc
  · simp [hc, is_ws]
  · exact ind_all_ws _ c hc

theorem space_ws : ∀ c ∈ [' '], is_ws c = true := by
  intro c hc; simp at hc; simp [hc, is_ws]

theorem parse_ser_round : ∀ fuel : Nat,
    (∀ v : Json, Json.msize v ≤ fuel → ∀ d wsl r,
      (∀ c ∈ wsl, is_ws c = true) → nondigit_head r →
      parse_val fuel (wsl ++ ser_val d v ++ r) = some (v, r)) ∧
    (∀ x xs, Json.msize x + Json.msizeList xs ≤ fuel →
      ∀ acc d wsl0 wsl r, (∀ c ∈ wsl0, is_ws c = true) → (∀ c ∈ wsl, is_ws c = true) →
      parse_items fuel acc (wsl0 ++ ser_items d (x :: xs) ++ wsl ++ ']' :: r) =
        some (Json.arr (acc ++ x :: xs), r)) ∧
    (∀ (kv : String × Json) kvs, Json.msize kv.2 + Json.msizeObj kvs ≤ fuel →
      ∀ acc d wsl0 wsl r, (∀ c ∈ wsl0, is_ws c = true) → (∀ c ∈ wsl, is_ws c = true) →
      parse_members fuel acc (wsl0 ++ ser_members d (kv :: kvs) ++ wsl ++ '\x7d' :: r) =
        some (Json.obj (acc ++ kv :: kvs), r)) := by
  intro fuel
  induction fuel using Nat.strong_induction_on with
  | _ fuel ih =>
    refine ⟨?_, ?_, ?_⟩
    · -- parse_val over ser_val
      intro v hsz d wsl r hws hnd
      obtain ⟨f, rfl⟩ : ∃ f, fuel = f + 1 :=
        ⟨fuel - 1, by have := Json.one_le_msize v; omega⟩
      cases v with
      | null =>
        rw [show wsl ++ ser_val d Json.null ++ r = wsl ++ 'n' :: (['u', 'l', 'l'] ++ r) by
          simp [ser_val]]
        rw [parse_val, skip_to_head hws (by decide)]
        simp
      | bool b =>
        cases b with
        | true =>
          rw [show wsl ++ ser_val d (Json.bool true) ++ r =
              wsl ++ 't' :: (['r', 'u', 'e'] ++ r) by simp [ser_val]]
          rw [parse_val, skip_to_head hws (by decide)]
          simp
        | false =>
          rw [show wsl ++ ser_val d (Json.bool false) ++ r =
              wsl ++ 'f' :: (['a', 'l', 's', 'e'] ++ r) by simp [ser_val]]
          rw [parse_val, skip_to_head hws (by decide)]
          simp
      | str s =>
        rw [show wsl ++ ser_val d (Json.str s) ++ r = wsl ++ '"' :: (esc s.data ++ '"' :: r) by
          simp [ser_val, ser_string]]
        rw [parse_val, skip_to_head hws (by decide)]
        simp [parse_ser_string, mk_data]
      | num n =>
        by_cases hn : n < 0
        · obtain ⟨dc, ds, hds, hd, hpd⟩ := parse_nat_run n.natAbs hnd
          rw [show wsl ++ ser_val d (Json.num n) ++ r = wsl ++ '-' :: (dc :: (ds ++ r)) by
            simp [ser_val, int_chars, hn, hds]]
          rw [parse_val, skip_to_head hws (by decide)]
          simp only [show (('-' : Char) == '\x7b') = false by decide,
            show (('-' : Char) == '[') = false by decide,
            show (('-' : Char) == '"') = false by decide,
            show (('-' : Char) == 't') = false by decide,
            show (('-' : Char) == 'f') = false by decide,
            show (('-' : Char) == 'n') = false by decide,
            show (('-' : Char) == '-') = true by decide,
            Bool.false_eq_true, if_false, if_true, hd, hpd]
          have hcast : -(n.natAbs : Int) = n := by omega
          simp only [hcast]
        · obtain ⟨dc, ds, hds, hd, hpd⟩ := parse_nat_run n.natAbs hnd
          rw [show wsl ++ ser_val d (Json.num n) ++ r = wsl ++ dc :: (ds ++ r) by
            simp [ser_val, int_chars, hn, hds]]
          rw [parse_val, skip_to_head hws (is_ws_of_digit_false hd)]
          obtain ⟨h1, h2, h3, h4, h5, h6, h7⟩ := digit_not_special hd
          simp only [h1, h2, h3, h4, h5, h6, h7, Bool.false_eq_true, if_false, hd, if_true, hpd]
          have hcast : (n.natAbs : Int) = n := by omega
          simp only [hcast]
      | arr xs =>
        cases xs with
        | nil =>
          obtain ⟨g, rfl⟩ : ∃ g, f = g + 1 :=
            ⟨f - 1, by simp [Json.msize, Json.msizeList] at hsz; omega⟩
          rw [show wsl ++ ser_val d (Json.arr []) ++ r = wsl ++ '[' :: (']' :: r) by
            simp [ser_val]]
          rw [parse_val, skip_to_head hws (by decide)]
          simp only [show (('[' : Char) == '\x7b') = false by decide,
            show (('[' : Char) == '[') = true by decide, Bool.false_eq_true, if_false, if_true]
          rw [parse_arr, skip_ws_nws (by decide)]
          rfl
        | cons x xs =>
          have hone1 := Json.one_le_msize x
          have hone2 := Json.one_le_msizeList xs
          have hsz' : Json.msize x + Json.msizeList xs + 2 ≤ f + 1 := by
            simp [Json.msize, Json.msizeList] at hsz
            omega
          obtain ⟨g, rfl⟩ : ∃ g, f = g + 1 := ⟨f - 1, by omega⟩
          rw [show wsl ++ ser_val d (Json.arr (x :: xs)) ++ r =
              wsl ++ '[' :: ('\n' :: ind (d + 1) ++
                (ser_items (d + 1) (x :: xs) ++ ('\n' :: ind d ++ ']' :: r))) by
            simp [ser_val]]
          rw [parse_val, skip_to_head hws (by decide)]
          simp only [show (('[' : Char) == '\x7b') = false by decide,
            show (('[' : Char) == '[') = true by decide, Bool.false_eq_true, if_false, if_true]
          rw [parse_arr]
          obtain ⟨t, ht⟩ := ser_items_factor (d + 1) x xs
          obtain ⟨c0, cs0, hc0, hc0ws, hc0ne⟩ := ser_val_head (d + 1) x
          have hskip : skip_ws ('\n' :: ind (d + 1) ++
              (ser_items (d + 1) (x :: xs) ++ ('\n' :: ind d ++ ']' :: r))) =
              c0 :: (cs0 ++ t ++ ('\n' :: ind d ++ ']' :: r)) := by
            rw [ht, hc0]
            rw [show ('\n' :: ind (d + 1) ++ ((c0 :: cs0 ++ t) ++ ('\n' :: ind d ++ ']' :: r)))
                = ('\n' :: ind (d + 1)) ++ c0 :: (cs0 ++ t ++ ('\n' :: ind d ++ ']' :: r)) by
              simp]
            exact skip_to_head (cons_ind_ws (d + 1)) hc0ws _
          rw [hskip]
          split
          · rename_i heq
            exfalso
            first
            | (injection heq with e1 e2; exact hc0ne e1)
            | (injection heq with e1 e2; exact hc0ne e1.symm)
          · have hgoal := (ih g (by omega)).2.1 x xs (by omega) [] (d + 1)
              ('\n' :: ind (d + 1)) ('\n' :: ind d) r (cons_ind_ws (d + 1)) (cons_ind_ws d)
            simp only [List.nil_append] at hgoal
            rw [show ('\n' :: ind (d + 1) ++
                (ser_items (d + 1) (x :: xs) ++ ('\n' :: ind d ++ ']' :: r))) =
                ('\n' :: ind (d + 1)) ++ ser_items (d + 1) (x :: xs) ++
                  ('\n' :: ind d) ++ ']' :: r by simp]
            exact hgoal
      | obj kvs =>
        cases kvs with
        | nil =>
          obtain ⟨g, rfl⟩ : ∃ g, f = g + 1 :=
            ⟨f - 1, by simp [Json.msize, Json.msizeObj] at hsz; omega⟩
          rw [show wsl ++ ser_val d (Json.obj []) ++ r = wsl ++ '\x7b' :: ('\x7d' :: r) by
            simp [ser_val]]
          rw [parse_val, skip_to_head hws (by decide)]
          simp only [show (('\x7b' : Char) == '\x7b') = true by decide, if_true]
          rw [parse_obj, skip_ws_nws (by decide)]
          rfl
        | cons kv kvs =>
          have hone1 := Json.one_le_msize kv.2
          have hone2 := Json.one_le_msizeObj kvs
          have hsz' : Json.msize kv.2 + Json.msizeObj kvs + 2 ≤ f + 1 := by
            obtain ⟨k, v⟩ := kv
            simp [Json.msize, Json.msizeObj] at hsz ⊢
            omega
          obtain ⟨g, rfl⟩ : ∃ g, f = g + 1 := ⟨f - 1, by omega⟩
          rw [show wsl ++ ser_val d (Json.obj (kv :: kvs)) ++ r =
              wsl ++ '\x7b' :: ('\n' :: ind (d + 1) ++
                (ser_members (d + 1) (kv :: kvs) ++ ('\n' :: ind d ++ '\x7d' :: r))) by
            simp [ser_val]]
          rw [parse_val, skip_to_head hws (by decide)]
          simp only [show (('\x7b' : Char) == '\x7b') = true by decide, if_true]
          rw [parse_obj]
          obtain ⟨t, ht⟩ := ser_members_head (d + 1) kv kvs
          have hskip : skip_ws ('\n' :: ind (d + 1) ++
              (ser_members (d + 1) (kv :: kvs) ++ ('\n' :: ind d ++ '\x7d' :: r))) =
              '"' :: (t ++ ('\n' :: ind d ++ '\x7d' :: r)) := by
            rw [ht]
            rw [show ('\n' :: ind (d + 1) ++ (('"' :: t) ++ ('\n' :: ind d ++ '\x7d' :: r)))
                = ('\n' :: ind (d + 1)) ++ '"' :: (t ++ ('\n' :: ind d ++ '\x7d' :: r)) by
              simp]
            exact skip_to_head (cons_ind_ws (d + 1)) (by decide) _
          rw [hskip]
          split
          · rename_i heq
            exfalso
            first
            | (injection heq with e1 e2; exact absurd e1 (by decide))
            | (injection heq with e1 e2; exact absurd e1.symm (by decide))
          · have hgoal := (ih g (by omega)).2.2 kv kvs (by omega) [] (d + 1)
              ('\n' :: ind (d + 1)) ('\n' :: ind d) r (cons_ind_ws (d + 1)) (cons_ind_ws d)
            simp only [List.nil_append] at hgoal
            rw [show ('\n' :: ind (d + 1) ++
                (ser_members (d + 1) (kv :: kvs) ++ ('\n' :: ind d ++ '\x7d' :: r))) =
                ('\n' :: ind (d + 1)) ++ ser_members (d + 1) (kv :: kvs) ++
                  ('\n' :: ind d) ++ '\x7d' :: r by simp]
            exact hgoal
    · -- parse_items over ser_items
      intro x xs hsz acc d wsl0 wsl r hws0 hws
      obtain ⟨f, rfl⟩ : ∃ f, fuel = f + 1 :=
        ⟨fuel - 1, by have := Json.one_le_msize x; have := Json.one_le_msizeList xs; omega⟩
      cases xs with
      | nil =>
        rw [show wsl0 ++ ser_items d [x] ++ wsl ++ ']' :: r =
            wsl0 ++ ser_val d x ++ (wsl ++ ']' :: r) by simp [ser_items]]
        rw [parse_items]
        have hv := (ih f (by omega)).1 x (by
            simp [Json.msizeList] at hsz
            omega) d wsl0 (wsl ++ ']' :: r) hws0 (nondigit_head_ws hws (by decide) r)
        simp only [hv]
        rw [skip_to_head hws (by decide)]
        simp
      | cons y ys =>
        have hone1 := Json.one_le_msize y
        have hone2 := Json.one_le_msizeList ys
        rw [show wsl0 ++ ser_items d (x :: y :: ys) ++ wsl ++ ']' :: r =
            wsl0 ++ ser_val d x ++
              (',' :: ('\n' :: ind d ++ (ser_items d (y :: ys) ++ (wsl ++ ']' :: r)))) by
          simp [ser_items]]
        rw [parse_items]
        have hv := (ih f (by omega)).1 x (by
            simp [Json.msizeList] at hsz
            omega) d wsl0
          (',' :: ('\n' :: ind d ++ (ser_items d (y :: ys) ++ (wsl ++ ']' :: r))))
          hws0 (nondigit_head_cons (by decide) _)
        simp only [hv]
        rw [skip_ws_nws (by decide)]
        have hgoal := (ih f (by omega)).2.1 y ys (by
            simp [Json.msizeList] at hsz
            omega) (acc ++ [x]) d ('\n' :: ind d) wsl r (cons_ind_ws d) hws
        simpa using hgoal
    · -- parse_members over ser_members
      intro kv kvs hsz acc d wsl0 wsl r hws0 hws
      obtain ⟨k, v⟩ := kv
      obtain ⟨f, rfl⟩ : ∃ f, fuel = f + 1 :=
        ⟨fuel - 1, by
          have := Json.one_le_msize (Prod.snd (k, v))
          have := Json.one_le_msizeObj kvs
          omega⟩
      cases kvs with
      | nil =>
        rw [show wsl0 ++ ser_members d [(k, v)] ++ wsl ++ '\x7d' :: r =
            wsl0 ++ '"' :: (esc k.data ++ '"' ::
              (':' :: (' ' :: (ser_val d v ++ (wsl ++ '\x7d' :: r))))) by
          simp [ser_members, ser_string]]
        rw [parse_members, skip_to_head hws0 (by decide)]
        simp only [parse_esc_round k.data]
        rw [skip_ws_nws (by decide)]
        have hv := (ih f (by omega)).1 v (by
            simp [Json.msizeObj] at hsz
            omega) d [' '] (wsl ++ '\x7d' :: r) space_ws (nondigit_head_ws hws (by decide) r)
        rw [show (' ' :: (ser_val d v ++ (wsl ++ '\x7d' :: r))) =
            [' '] ++ ser_val d v ++ (wsl ++ '\x7d' :: r) by simp]
        simp only [hv]
        rw [skip_to_head hws (by decide)]
        simp [mk_data]
      | cons lw kvs2 =>
        rw [show wsl0 ++ ser_members d ((k, v) :: lw :: kvs2) ++ wsl ++ '\x7d' :: r =
            wsl0 ++ '"' :: (esc k.data ++ '"' ::
              (':' :: (' ' :: (ser_val d v ++
                (',' :: ('\n' :: ind d ++
                  (ser_members d (lw :: kvs2) ++ (wsl ++ '\x7d' :: r)))))))) by
          simp [ser_members, ser_string]]
        rw [parse_members, skip_to_head hws0 (by decide)]
        simp only [parse_esc_round k.data]
        rw [skip_ws_nws (by decide)]
        have hv := (ih f (by omega)).1 v (by
            obtain ⟨l2, w2⟩ := lw
            have := Json.one_le_msize w2
            have := Json.one_le_msizeObj kvs2
            simp [Json.msizeObj] at hsz
            omega) d [' ']
          (',' :: ('\n' :: ind d ++ (ser_members d (lw :: kvs2) ++ (wsl ++ '\x7d' :: r))))
          space_ws (nondigit_head_cons (by decide) _)
        rw [show (' ' :: (ser_val d v ++
            (',' :: ('\n' :: ind d ++ (ser_members d (lw :: kvs2) ++ (wsl ++ '\x7d' :: r)))))) =
            [' '] ++ ser_val d v ++
              (',' :: ('\n' :: ind d ++
                (ser_members d (lw :: kvs2) ++ (wsl ++ '\x7d' :: r)))) by simp]
        simp only [hv]
        rw [skip_ws_nws (by decide)]
        have hgoal := (ih f (by omega)).2.2 lw kvs2 (by
            obtain ⟨l2, w2⟩ := lw
            simp [Json.msizeObj] at hsz ⊢
            omega) (acc ++ [(String.mk k.data, v)]) d ('\n' :: ind d) wsl r
          (cons_ind_ws d) hws
        simpa [mk_data] using hgoal

theorem msize_le_items : ∀ (xs : List Json),
    (∀ y ∈ xs, ∀ d, Json.msize y ≤ (ser_val d y).length + 1) →
    ∀ x, (∀ d, Json.msize x ≤ (ser_val d x).length + 1) →
    ∀ d, Json.msize x + Json.msizeList xs ≤ (ser_items d (x :: xs)).length + 2 := by
  intro xs
  induction xs with
  | nil =>
    intro _ x hx d
    have := hx d
    simp [ser_items, Json.msizeList]
    omega
  | cons y ys ihy =>
    intro hall x hx d
    have h1 := hx d
    have h2 := ihy (fun z hz d2 => hall z (by simp [hz]) d2) y (fun d2 => hall y (by simp) d2) d
    simp [ser_items, Json.msizeList, ind] at h2 ⊢
    omega

theorem msize_le_members : ∀ (kvs : List (String × Json)),
    (∀ lw ∈ kvs, ∀ d, Json.msize (Prod.snd lw) ≤ (ser_val d (Prod.snd lw)).length + 1) →
    ∀ (kv : String × Json), (∀ d, Json.msize kv.2 ≤ (ser_val d kv.2).length + 1) →
    ∀ d, Json.msize kv.2 + Json.msizeObj kvs ≤ (ser_members d (kv :: kvs)).length + 2 := by
  intro kvs
  induction kvs with
  | nil =>
    intro _ kv hkv d
    obtain ⟨k, v⟩ := kv
    have := hkv d
    simp [ser_members, Json.msizeObj, ser_string] at this ⊢
    omega
  | cons lw kvs2 ihl =>
    intro hall kv hkv d
    obtain ⟨k, v⟩ := kv
    have h1 := hkv d
    have h2 := ihl (fun z hz d2 => hall z (by simp [hz]) d2) lw (fun d2 => hall lw (by simp) d2) d
    obtain ⟨l2, w2⟩ := lw
    simp [ser_members, Json.msizeObj, ser_string, ind] at h1 h2 ⊢
    omega

theorem msize_le_ser : ∀ (v : Json) (d : Nat), Json.msize v ≤ (ser_val d v).length + 1 := by
  have main : ∀ n (v : Json), sizeOf v ≤ n → ∀ d, Json.msize v ≤ (ser_val d v).length + 1 := by
    intro n
    induction n with
    | zero => intro v h; cases v <;> simp at h
    | succ n ih =>
      intro v h d
      cases v with
      | null => simp [Json.msize, ser_val]
      | bool b => cases b <;> simp [Json.msize, ser_val]
      | num m => simp [Json.msize, ser_val]; try omega
      | str s => simp [Json.msize, ser_val]; try omega
      | arr xs =>
        cases xs with
        | nil => simp [Json.msize, Json.msizeList, ser_val]
        | cons x xs =>
          have hx : ∀ d2, Json.msize x ≤ (ser_val d2 x).length + 1 := fun d2 => ih x
            (by have := List.sizeOf_lt_of_mem (show x ∈ x :: xs by simp); simp at h; omega) d2
          have hall : ∀ y ∈ xs, ∀ d2, Json.msize y ≤ (ser_val d2 y).length + 1 := fun y hy d2 =>
            ih y (by have := List.sizeOf_lt_of_mem hy; simp at h; omega) d2
          have := msize_le_items xs hall x hx (d + 1)
          simp [Json.msize, Json.msizeList, ser_val, ind] at this ⊢
          omega
      | obj kvs =>
        cases kvs with
        | nil => simp [Json.msize, Json.msizeObj, ser_val]
        | cons kv kvs =>
          have hx : ∀ d2, Json.msize kv.2 ≤ (ser_val d2 kv.2).length + 1 := fun d2 => ih kv.2
            (by have h1 := List.sizeOf_lt_of_mem (show kv ∈ kv :: kvs by simp)
                obtain ⟨k, v⟩ := kv
                simp at h h1 ⊢; omega) d2
          have hall : ∀ lw ∈ kvs, ∀ d2,
              Json.msize (Prod.snd lw) ≤ (ser_val d2 (Prod.snd lw)).length + 1 := fun lw hlw d2 =>
            ih lw.2 (by have h1 := List.sizeOf_lt_of_mem hlw
                        obtain ⟨k, v⟩ := lw
                        simp at h h1 ⊢; omega) d2
          have := msize_le_members kvs hall kv hx (d + 1)
          obtain ⟨k, v⟩ := kv
          simp [Json.msize, Json.msizeObj, ser_val, ind] at this ⊢
          omega
  intro v d
  exact main (sizeOf v) v le_rfl d

/-- Writing then reading gives back the value: the serializer of `_save_one`
composed with the deserializer of `_load_one` is the identity. -/
theorem parse_ser_json (v : Json) : parse_json (ser_json v) = some v := by
  have hfuel : Json.msize v ≤ 2 * (ser_json v).length + 2 := by
    have := msize_le_ser v 0
    simp [ser_json] at this ⊢
    omega
  have h := (parse_ser_round (2 * (ser_json v).length + 2)).1 v hfuel 0 [] []
    (by simp) trivial
  simp only [List.nil_append, List.append_nil] at h
  rw [parse_json]
  rw [show ser_json v = ser_val 0 v from rfl] at h ⊢
  rw [h]
  simp [skip_ws]

/-- An uploaded file carried by a message (`discord.Attachment`): its file
name and its decoded byte payload (modelled at text level). -/
structure Attachment where
  filename : String
  payload : List Char
deriving DecidableEq

/-- One message in a channel (`discord.Message`): platform id, author id,
text content, attachments, and whether it is pinned. -/
structure Message where
  mid : Nat
  author : Nat
  content : String
  attachments : List Attachment
  pinned : Bool
deriving DecidableEq

/-- The remote platform state: the bot's own user id, each resolvable
channel's message list (newest first, as `history(oldest_first=False)`
iterates), and the next fresh message id. -/
structure World where
  botId : Nat
  channels : List (Nat × List Message)
  nextMid : Nat
deriving DecidableEq

/-- Channel resolution (`_get_text_channel`): the cache lookup and the
fallback fetch are both modelled by the world's channel table; a zero or
unknown handle, an inaccessible channel or a non-text channel is one that is
absent from the table, and yields `none` exactly as the source returns
`None`. -/
def get_text_channel (w : World) (cid : Nat) : Option (List Message) :=
  (w.channels.find? (fun p => p.1 == cid)).map (fun p => p.2)

/-- Message list of a channel, newest first (empty when unresolvable). -/
def channel_msgs (w : World) (cid : Nat) : List Message :=
  (get_text_channel w cid).getD []

/-- Effect of `channel.send(...)` (optionally followed by `message.pin()`):
a fresh message is prepended to the channel's history and the id counter
advances. -/
def post_message (w : World) (cid : Nat) (content : String) (atts : List Attachment)
    (pinned : Bool) : Message × World :=
  let m : Message := ⟨w.nextMid, w.botId, content, atts, pinned⟩
  (m, { w with
        channels := w.channels.map (fun p => if p.1 = cid then (p.1, m :: p.2) else p),
        nextMid := w.nextMid + 1 })

/-- Effect of the `for m in to_delete: await m.delete()` loop: every message
whose id is among the victims' ids disappears from the channel. -/
def delete_messages (w : World) (cid : Nat) (victims : List Message) : World :=
  { w with channels := w.channels.map (fun p =>
      if p.1 = cid then (p.1, p.2.filter (fun m => victims.all (fun v => v.mid != m.mid)))
      else p) }

/-- Substring test on character lists, used for Python's `tag in content`. -/
def list_contains : List Char → List Char → Bool
  | [], pat => pat.isPrefixOf []
  | c :: rest, pat => pat.isPrefixOf (c :: rest) || list_contains rest pat

/-- Python's `tag in (content or "")` membership test on strings. -/
def str_contains (s pat : String) : Bool := list_contains s.data pat.data

/-- Scan of the pinned-message set performed by `_ensure_index_message`:
the first pinned message authored by the bot whose content contains `tag`. -/
def find_pinned_marker (botId : Nat) (tag : String) (msgs : List Message) : Option Message :=
  msgs.find? (fun m => m.pinned && m.author == botId && str_contains m.content tag)

/-- Embedding of `_ensure_index_message(channel, tag)`: reuse a pinned marker
by author identity and tag-substring match, otherwise send `"[storage] " + tag`
and pin it (the success semantics: pin listing is readable and pinning
succeeds; a `Forbidden` pin listing is not modelled since every claim about
markers conditions on accessible pins). -/
def ensure_index_message (w : World) (cid : Nat) (tag : String) : Message × World :=
  match find_pinned_marker w.botId tag (channel_msgs w cid) with
  | some m => (m, w)
  | none => post_message w cid ("[storage] " ++ tag) [] true

/-- Embedding of `_find_latest_attachment(channel, filename)`: walk history
newest first, skip foreign authors, and return the first attachment whose
file name matches.  The caller bounds the walk to 100 messages. -/
def find_latest_attachment (botId : Nat) (filename : String) : List Message → Option Attachment
  | [] => none
  | m :: rest =>
      if m.author = botId then
        match m.attachments.find? (fun a => a.filename == filename) with
        | some a => some a
        | none => find_latest_attachment botId filename rest
      else find_latest_attachment botId filename rest

/-- Embedding of `_load_one(name, cid)`: resolve the channel (empty result on
failure), ensure the marker, scan the newest 100 messages for the snapshot,
download and decode it; a missing snapshot, an undecodable payload and a
payload whose top level is not a JSON object all degrade to the empty
mapping. -/
def load_one (w : World) (name : String) (cid : Nat) : JObj × World :=
  match get_text_channel w cid with
  | none => ([], w)
  | some _ =>
      let w1 := (ensure_index_message w cid (name ++ ".json")).2
      match find_latest_attachment w1.botId (name ++ ".json")
          ((channel_msgs w1 cid).take 100) with
      | none => ([], w1)
      | some att =>
          match parse_json att.payload with
          | some (Json.obj kvs) => (kvs, w1)
          | some _ => ([], w1)
          | none => ([], w1)

/-- Snapshot-message test of the compaction loop in `_save_one`: authored by
the bot and carrying an attachment named `filename`. -/
def snap_msg (botId : Nat) (filename : String) (m : Message) : Bool :=
  m.author == botId && m.attachments.any (fun a => a.filename == filename)

/-- Compaction scan of `_save_one`: walk the (already window-bounded) history
newest first with a `kept` counter; every match beyond the third is collected
for deletion. -/
def compact_scan (botId : Nat) (filename : String) : Nat → List Message → List Message
  | _, [] => []
  | kept, m :: rest =>
      if snap_msg botId filename m then
        if kept + 1 > 3 then m :: compact_scan botId filename (kept + 1) rest
        else compact_scan botId filename (kept + 1) rest
      else compact_scan botId filename kept rest

/-- Embedding of `_save_one(name, cid, data)`: resolve the channel (no-op on
failure), ensure the marker, upload the serialized snapshot as a new message,
then compact: scan the newest 200 messages and delete every snapshot message
beyond the three most recent. -/
def save_one (w : World) (name : String) (cid : Nat) (data : JObj) : World :=
  match get_text_channel w cid with
  | none => w
  | some _ =>
      let w1 := (ensure_index_message w cid (name ++ ".json")).2
      let payload := ser_json (Json.obj data)
      let w2 := (post_message w1 cid ("[storage] update " ++ name ++ ".json")
        [⟨name ++ ".json", payload⟩] false).2
      let victims := compact_scan w2.botId (name ++ ".json") 0 ((channel_msgs w2 cid).take 200)
      delete_messages w2 cid victims

/-- The `STORAGE_*` environment configuration. -/
structure Config where
  storage_guild_id : Nat
  storage_warn_ch_id : Nat
  storage_tickets_ch_id : Nat
  storage_optin_ch_id : Nat
  storage_bans_ch_id : Nat
  storage_config_ch_id : Nat
deriving DecidableEq

/-- Embedding of `_storage_targets()`. -/
def storage_targets (cfg : Config) : List (String × Nat) :=
  [("warnings", cfg.storage_warn_ch_id),
   ("tickets", cfg.storage_tickets_ch_id),
   ("dm_optin", cfg.storage_optin_ch_id),
   ("bans", cfg.storage_bans_ch_id),
   ("config", cfg.storage_config_ch_id)]

/-- The process state: the world plus the five module-level caches and the
`_storage_ready` event (a one-shot boolean gate). -/
structure StorageState where
  world : World
  warn_cache : JObj
  tickets_cache : JObj
  optin_cache : JObj
  bans_cache : JObj
  config_cache : JObj
  storage_ready : Bool
deriving DecidableEq

/-- Embedding of `_cache_for(name)`. -/
def cache_for (s : StorageState) (name : String) : JObj :=
  if name = "warnings" then s.warn_cache
  else if name = "tickets" then s.tickets_cache
  else if name = "dm_optin" then s.optin_cache
  else if name = "bans" then s.bans_cache
  else if name = "config" then s.config_cache
  else []

/-- One iteration of the `for name, cid in _storage_targets()` loop of
`storage_bootstrap`.  The dataset is loaded when its handle is non-zero
(`if cid`), and the result is installed into the matching module-level cache.
The source declares `global _WARN_CACHE, _TICKETS_CACHE, _OPTIN_CACHE,
_BANS_CACHE` but not `_CONFIG_CACHE`, so the `name == "config"` arm of the
loop assigns a function-local name and leaves the global config cache
untouched; the embedding therefore drops the loaded value in that arm. -/
def bootstrap_step (s : StorageState) (nc : String × Nat) : StorageState :=
  let dw := if nc.2 ≠ 0 then load_one s.world nc.1 nc.2 else ([], s.world)
  let s1 := { s with world := dw.2 }
  if nc.1 = "warnings" then { s1 with warn_cache := dw.1 }
  else if nc.1 = "tickets" then { s1 with tickets_cache := dw.1 }
  else if nc.1 = "dm_optin" then { s1 with optin_cache := dw.1 }
  else if nc.1 = "bans" then { s1 with bans_cache := dw.1 }
  else s1

/-- Embedding of `storage_bootstrap()` (success path of the `try`): when the
storage guild is unconfigured the gate is set and nothing is loaded;
otherwise every target is processed in order and the gate is set. -/
def storage_bootstrap (cfg : Config) (s : StorageState) : StorageState :=
  if cfg.storage_guild_id = 0 then { s with storage_ready := true }
  else
    let s1 := (storage_targets cfg).foldl bootstrap_step s
    { s1 with storage_ready := true }

/-- A persistence job created by `asyncio.create_task(_save_one(...))`:
scheduled but not awaited. -/
structure PendingJob where
  name : String
  cid : Nat
deriving DecidableEq

/-- Embedding of `_schedule_save(name, cid)`: a task is created only when the
handle is non-zero; a zero handle performs no network call at all. -/
def schedule_save (name : String) (cid : Nat) : Option PendingJob :=
  if cid ≠ 0 then some ⟨name, cid⟩ else none

/-- Running a previously scheduled persistence job against the then-current
state: `_save_one(name, cid, _cache_for(name))` touches only the world, never
a cache. -/
def run_pending (s : StorageState) : Option PendingJob → StorageState
  | none => s
  | some j => { s with world := save_one s.world j.name j.cid (cache_for s j.name) }

/-- Python's `isinstance(e, dict)`. -/
def is_json_obj : Json → Bool
  | Json.obj _ => true
  | _ => false

/-- Embedding of `_normalize_warnings(raw)`.  Keys of the model's objects are
strings already (as for every JSON-decoded value), so the source's `str(gk)`
and `str(uk)` coercions are the identity here. -/
def normalize_warnings (raw : Json) : JObj :=
  match raw with
  | Json.obj kvs =>
      kvs.filterMap (fun gkv =>
        match gkv.2 with
        | Json.obj users =>
            some (gkv.1, Json.obj (users.map (fun ukv =>
              match ukv.2 with
              | Json.arr es => (ukv.1, Json.arr (es.filter is_json_obj))
              | _ => (ukv.1, Json.arr []))))
        | _ => none)
  | _ => []

/-- Python's `cache or {}` idiom: an empty dict is falsy. -/
def py_or (o : JObj) : JObj := if o = [] then [] else o

/-- Embedding of `load_warnings()`. -/
def load_warnings (s : StorageState) : JObj :=
  normalize_warnings (Json.obj (py_or s.warn_cache))

/-- Embedding of `save_warnings(data)`: the synchronous part replaces the
cache contents with the normalized data; the returned job is the scheduled
(not yet run) background persistence task. -/
def save_warnings (cfg : Config) (s : StorageState) (data : JObj) :
    StorageState × Option PendingJob :=
  ({ s with warn_cache := normalize_warnings (Json.obj data) },
   schedule_save "warnings" cfg.storage_warn_ch_id)

/-- Embedding of `load_tickets()`. -/
def load_tickets (s : StorageState) : JObj := py_or s.tickets_cache

/-- Embedding of `save_tickets(data)`. -/
def save_tickets (cfg : Config) (s : StorageState) (data : JObj) :
    StorageState × Option PendingJob :=
  ({ s with tickets_cache := data }, schedule_save "tickets" cfg.storage_tickets_ch_id)

/-- Embedding of `_load_optins()`. -/
def load_optins (s : StorageState) : JObj := py_or s.optin_cache

/-- Embedding of `_save_optins(data)`. -/
def save_optins (cfg : Config) (s : StorageState) (data : JObj) :
    StorageState × Option PendingJob :=
  ({ s with optin_cache := data }, schedule_save "dm_optin" cfg.storage_optin_ch_id)

/-- Embedding of `load_bans()`. -/
def load_bans (s : StorageState) : JObj := py_or s.bans_cache

/-- Embedding of `save_bans(data)`. -/
def save_bans (cfg : Config) (s : StorageState) (data : JObj) :
    StorageState × Option PendingJob :=
  ({ s with bans_cache := data }, schedule_save "bans" cfg.storage_bans_ch_id)

/-- Embedding of `load_config()`. -/
def load_config (s : StorageState) : JObj := py_or s.config_cache

/-- Embedding of `save_config(data)`. -/
def save_config (cfg : Config) (s : StorageState) (data : JObj) :
    StorageState × Option PendingJob :=
  ({ s with config_cache := data }, schedule_save "config" cfg.storage_config_ch_id)

theorem py_or_eq (o : JObj) : py_or o = o := by
  rw [py_or]
  split
  · rename_i h; exact h.symm
  · rfl

theorem isPrefixOf_self_append : ∀ (l r : List Char), l.isPrefixOf (l ++ r) = true := by
  intro l
  induction l with
  | nil => intro r; simp [List.isPrefixOf]
  | cons c cs ih => intro r; simp [List.isPrefixOf, ih r]

theorem list_contains_append_self : ∀ (pre pat : List Char),
    list_contains (pre ++ pat) pat = true := by
  intro pre pat
  induction pre with
  | nil =>
    cases pat with
    | nil => rfl
    | cons c cs =>
        have h := isPrefixOf_self_append (c :: cs) []
        rw [List.append_nil] at h
        simp [list_contains, h]
  | cons p pre ih =>
    simp only [List.cons_append, list_contains, List.append_eq, ih, Bool.or_true]

theorem str_contains_marker (tag : String) :
    str_contains ("[storage] " ++ tag) tag = true := by
  rw [str_contains, String.data_append]
  exact list_contains_append_self _ _

theorem find_map_keys {α : Type} (l : List (Nat × α)) (f : Nat × α → Nat × α)
    (hf : ∀ p, (f p).1 = p.1) (c : Nat) :
    (l.map f).find? (fun p => p.1 == c) = (l.find? (fun p => p.1 == c)).map f := by
  induction l with
  | nil => rfl
  | cons p l ih =>
    simp only [List.map_cons, List.find?]
    rw [hf p]
    by_cases h : p.1 = c
    · simp [h]
    · simp [beq_eq_false_iff_ne.mpr h, ih]

theorem get_after_post (w : World) (cid : Nat) (content : String) (atts : List Attachment)
    (pinned : Bool) (c2 : Nat) :
    get_text_channel (post_message w cid content atts pinned).2 c2 =
      if c2 = cid then
        (get_text_channel w c2).map
          (fun msgs => (⟨w.nextMid, w.botId, content, atts, pinned⟩ : Message) :: msgs)
      else get_text_channel w c2 := by
  simp only [post_message, get_text_channel]
  rw [find_map_keys _ _ (by intro p; by_cases h : p.1 = cid <;> simp [h]) c2]
  by_cases h : c2 = cid
  · subst h
    cases hf : w.channels.find? (fun p => p.1 == c2) with
    | none => simp
    | some p =>
      have : p.1 = c2 := by
        have := List.find?_some hf
        simpa using this
      simp [this]
  · cases hf : w.channels.find? (fun p => p.1 == c2) with
    | none => simp [h]
    | some p =>
      have hp : p.1 = c2 := by
        have := List.find?_some hf
        simpa using this
      simp [h, hp, Ne.symm h]

theorem get_after_delete (w : World) (cid : Nat) (victims : List Message) (c2 : Nat) :
    get_text_channel (delete_messages w cid victims) c2 =
      if c2 = cid then
        (get_text_channel w c2).map
          (fun msgs => msgs.filter (fun m => victims.all (fun v => v.mid != m.mid)))
      else get_text_channel w c2 := by
  simp only [delete_messages, get_text_channel]
  rw [find_map_keys _ _ (by intro p; by_cases h : p.1 = cid <;> simp [h]) c2]
  by_cases h : c2 = cid
  · subst h
    cases hf : w.channels.find? (fun p => p.1 == c2) with
    | none => simp
    | some p =>
      have : p.1 = c2 := by
        have := List.find?_some hf
        simpa using this
      simp [this]
  · cases hf : w.channels.find? (fun p => p.1 == c2) with
    | none => simp [h]
    | some p =>
      have hp : p.1 = c2 := by
        have := List.find?_some hf
        simpa using this
      simp [h, hp, Ne.symm h]

theorem post_botId (w : World) (cid : Nat) (content : String) (atts : List Attachment)
    (pinned : Bool) : (post_message w cid content atts pinned).2.botId = w.botId := rfl

theorem post_nextMid (w : World) (cid : Nat) (content : String) (atts : List Attachment)
    (pinned : Bool) : (post_message w cid content atts pinned).2.nextMid = w.nextMid + 1 := rfl

theorem delete_botId (w : World) (cid : Nat) (victims : List Message) :
    (delete_messages w cid victims).botId = w.botId := rfl

theorem delete_nextMid (w : World) (cid : Nat) (victims : List Message) :
    (delete_messages w cid victims).nextMid = w.nextMid := rfl

theorem compact_scan_eq (botId : Nat) (filename : String) :
    ∀ (msgs : List Message) (k : Nat),
      compact_scan botId filename k msgs =
        (msgs.filter (snap_msg botId filename)).drop (3 - k) := by
  intro msgs
  induction msgs with
  | nil => intro k; simp [compact_scan]
  | cons m rest ih =>
    intro k
    rw [compact_scan]
    by_cases hs : snap_msg botId filename m
    · rw [if_pos hs]
      by_cases hk : k + 1 > 3
      · rw [if_pos hk, ih (k + 1)]
        simp only [List.filter_cons, hs, if_pos]
        rw [show 3 - k = 0 by omega, show 3 - (k + 1) = 0 by omega]
        simp
      · rw [if_neg hk, ih (k + 1)]
        simp only [List.filter_cons, hs, if_pos]
        rw [show 3 - k = (3 - (k + 1)) + 1 by omega]
        simp
    · rw [if_neg hs, ih k]
      simp only [List.filter_cons]
      rw [if_neg (by simpa using hs)]

theorem ensure_found {w : World} {cid : Nat} {tag : String} {m : Message}
    (h : find_pinned_marker w.botId tag (channel_msgs w cid) = some m) :
    ensure_index_message w cid tag = (m, w) := by
  rw [ensure_index_message, h]

theorem ensure_not_found {w : World} {cid : Nat} {tag : String}
    (h : find_pinned_marker w.botId tag (channel_msgs w cid) = none) :
    ensure_index_message w cid tag = post_message w cid ("[storage] " ++ tag) [] true := by
  rw [ensure_index_message, h]

/-- Normal shape of the warnings dataset: every value is an object of users,
every user value is a list holding only objects.  Keys are strings by
construction of the model. -/
def normal_warnings_shape (o : JObj) : Bool :=
  o.all (fun gkv =>
    match gkv.2 with
    | Json.obj users =>
        users.all (fun ukv =>
          match ukv.2 with
          | Json.arr es => es.all is_json_obj
          | _ => false)
    | _ => false)

theorem all_filter_self {α : Type} (p : α → Bool) (l : List α) :
    (l.filter p).all p = true := by
  rw [List.all_eq_true]
  intro x hx
  exact (List.mem_filter.mp hx).2

theorem normalize_warnings_shape_ok (raw : Json) :
    normal_warnings_shape (normalize_warnings raw) = true := by
  cases raw with
  | obj kvs =>
    rw [normalize_warnings, normal_warnings_shape, List.all_eq_true]
    intro gkv hgkv
    obtain ⟨src, _, hsrc⟩ := List.mem_filterMap.mp hgkv
    cases hv : src.2 with
    | obj users =>
      rw [hv] at hsrc
      simp only [Option.some_inj] at hsrc
      rw [← hsrc]
      simp only []
      rw [List.all_eq_true]
      intro ukv hukv
      obtain ⟨usrc, _, husrc⟩ := List.mem_map.mp hukv
      cases hu : usrc.2 with
      | arr es =>
        rw [hu] at husrc
        rw [← husrc]
        simp only []
        exact all_filter_self is_json_obj es
      | null => rw [hu] at husrc; rw [← husrc]; simp
      | bool b => rw [hu] at husrc; rw [← husrc]; simp
      | num m => rw [hu] at husrc; rw [← husrc]; simp
      | str t => rw [hu] at husrc; rw [← husrc]; simp
      | obj o2 => rw [hu] at husrc; rw [← husrc]; simp
    | null => rw [hv] at hsrc; simp at hsrc
    | bool b => rw [hv] at hsrc; simp at hsrc
    | num m => rw [hv] at hsrc; simp at hsrc
    | str t => rw [hv] at hsrc; simp at hsrc
    | arr es => rw [hv] at hsrc; simp at hsrc
  | null => rfl
  | bool b => rfl
  | num m => rfl
  | str t => rfl
  | arr es => rfl

theorem normalize_warnings_of_normal : ∀ (o : JObj),
    normal_warnings_shape o = true → normalize_warnings (Json.obj o) = o := by
  intro o
  induction o with
  | nil => intro _; rfl
  | cons gkv o ih =>
    intro h
    rw [normal_warnings_shape, List.all_eq_true] at h
    have hhd := h gkv (by simp)
    have htl : normal_warnings_shape o = true := by
      rw [normal_warnings_shape, List.all_eq_true]
      intro z hz
      exact h z (by simp [hz])
    obtain ⟨gk, gv⟩ := gkv
    cases hv : gv with
    | obj users =>
      have husers : ∀ ukv ∈ users, (match ukv.2 with
          | Json.arr es => es.all is_json_obj
          | _ => false) = true := by
        rw [hv] at hhd
        simp only [] at hhd
        rw [List.all_eq_true] at hhd
        exact hhd
      have hmap : users.map (fun ukv =>
          match ukv.2 with
          | Json.arr es => (ukv.1, Json.arr (es.filter is_json_obj))
          | _ => (ukv.1, Json.arr [])) = users := by
        rw [show ∀ (l : List (String × Json)) (f : String × Json → String × Json),
            (∀ x ∈ l, f x = x) → l.map f = l from fun l f hf => by
          induction l with
          | nil => rfl
          | cons a l ihl =>
              simp [hf a (by simp), ihl (fun x hx => hf x (by simp [hx]))]]
        intro ukv hukv
        have := husers ukv hukv
        obtain ⟨uk, uv⟩ := ukv
        cases hu : uv with
        | arr es =>
          rw [hu] at this
          simp only [] at this ⊢
          rw [List.filter_eq_self.mpr]
          intro a ha
          rw [List.all_eq_true] at this
          exact this a ha
        | null => rw [hu] at this; simp at this
        | bool b => rw [hu] at this; simp at this
        | num m => rw [hu] at this; simp at this
        | str t => rw [hu] at this; simp at this
        | obj o2 => rw [hu] at this; simp at this
      have hres := ih htl
      rw [normalize_warnings] at hres ⊢
      simp only [List.filterMap_cons]
      simp only [hmap]
      rw [hres]
    | null => rw [hv] at hhd; simp at hhd
    | bool b => rw [hv] at hhd; simp at hhd
    | num m => rw [hv] at hhd; simp at hhd
    | str t => rw [hv] at hhd; simp at hhd
    | arr es => rw [hv] at hhd; simp at hhd

theorem normalize_warnings_idem (raw : Json) :
    normalize_warnings (Json.obj (normalize_warnings raw)) = normalize_warnings raw :=
  normalize_warnings_of_normal _ (normalize_warnings_shape_ok raw)

theorem run_pending_caches (s : StorageState) (j : Option PendingJob) :
    (run_pending s j).warn_cache = s.warn_cache ∧
    (run_pending s j).tickets_cache = s.tickets_cache ∧
    (run_pending s j).optin_cache = s.optin_cache ∧
    (run_pending s j).bans_cache = s.bans_cache ∧
    (run_pending s j).config_cache = s.config_cache := by
  cases j <;> exact ⟨rfl, rfl, rfl, rfl, rfl⟩

/-- Sample configuration: storage guild set, warnings on channel 6, config on
channel 5, the remaining handles unconfigured (zero). -/
def cfg_sample : Config := ⟨1, 6, 0, 0, 0, 5⟩

/-- A warnings dataset value in normalized shape. -/
def warn_payload : JObj :=
  [("10", Json.obj [("20", Json.arr [Json.obj [("reason", Json.str "spam")]])])]

/-- A non-empty config dataset value. -/
def config_payload : JObj := [("10", Json.obj [("welcome_channel_id", Json.num 7)])]

/-- Sample world: the bot is user 7; channel 6 holds a warnings snapshot and
channel 5 holds a config snapshot, both authored by the bot. -/
def w_sample : World :=
  ⟨7,
   [(6, [⟨1, 7, "[storage] update warnings.json",
      [⟨"warnings.json", ser_json (Json.obj warn_payload)⟩], false⟩]),
    (5, [⟨2, 7, "[storage] update config.json",
      [⟨"config.json", ser_json (Json.obj config_payload)⟩], false⟩])],
   10⟩

/-- Sample process state before bootstrap: all caches empty, gate unset. -/
def s_sample : StorageState := ⟨w_sample, [], [], [], [], [], false⟩

/-- **C1** (code bug).  The config dataset's snapshot is readable from its
channel (first conjunct), bootstrap installs the warnings snapshot as
claimed (second conjunct), but because `storage_bootstrap` omits
`_CONFIG_CACHE` from its `global` declaration the `config` arm binds a
function-local name: after bootstrap the config cache is still empty and
`load_config` returns the empty mapping instead of the loaded snapshot, while
the readiness gate is set as usual. -/
theorem c1_bootstrap_config_cache_dropped :
    (load_one w_sample "config" 5).1 = config_payload ∧
    (storage_bootstrap cfg_sample s_sample).warn_cache = warn_payload ∧
    (storage_bootstrap cfg_sample s_sample).config_cache = [] ∧
    load_config (storage_bootstrap cfg_sample s_sample) = [] ∧
    (storage_bootstrap cfg_sample s_sample).storage_ready = true := by
  decide

/-- **C2** (code bug).  Nothing in the module ever waits on `_storage_ready`:
a cache write (`save_warnings`) and a cache read (`load_warnings`) execute to
completion on a state whose gate is still unset (first three conjuncts), and
in general both operations are insensitive to the gate — running them with
the gate forced off gives the same result apart from the untouched flag — so
no operation suspends until bootstrap signals readiness. -/
theorem c2_operations_ignore_gate :
    (s_sample.storage_ready = false ∧
     (save_warnings cfg_sample s_sample warn_payload).1.warn_cache = warn_payload ∧
     (save_warnings cfg_sample s_sample warn_payload).1.storage_ready = false ∧
     load_warnings (save_warnings cfg_sample s_sample warn_payload).1 = warn_payload) ∧
    (∀ (cfg : Config) (s : StorageState) (data : JObj),
      (save_warnings cfg { s with storage_ready := false } data).1 =
        { (save_warnings cfg s data).1 with storage_ready := false } ∧
      load_warnings { s with storage_ready := false } = load_warnings s) := by
  constructor
  · decide
  · intro cfg s data
    exact ⟨rfl, rfl⟩

/-- **C3** (counterexample).  Saving the warnings content `{"g": 1}` and
reading it back does not return the saved content: `save_warnings` normalizes
the data first, and normalization drops the non-object group value. -/
theorem c3_counterexample :
    ¬ (load_warnings (save_warnings cfg_sample s_sample [("g", Json.num 1)]).1 =
        [("g", Json.num 1)]) := by
  decide

/-- **C3** (amended).  Immediately after `save(D, C)` returns — before the
background persistence job has run, and unchanged after it runs — `get(D)`
returns `C` for the tickets, dm_optin, bans and config datasets; for the
warnings dataset it returns `_normalize_warnings(C)`, which equals `C`
exactly when `C` already has the normalized warnings shape.  The cache
mutation is synchronous and its visibility never depends on the network
world. -/
theorem c3_cache_before_durability (cfg : Config) (s : StorageState) (C : JObj) :
    (load_warnings (save_warnings cfg s C).1 = normalize_warnings (Json.obj C)) ∧
    (normal_warnings_shape C = true → load_warnings (save_warnings cfg s C).1 = C) ∧
    (load_warnings (run_pending (save_warnings cfg s C).1 (save_warnings cfg s C).2) =
      normalize_warnings (Json.obj C)) ∧
    (load_tickets (save_tickets cfg s C).1 = C) ∧
    (load_tickets (run_pending (save_tickets cfg s C).1 (save_tickets cfg s C).2) = C) ∧
    (load_optins (save_optins cfg s C).1 = C) ∧
    (load_optins (run_pending (save_optins cfg s C).1 (save_optins cfg s C).2) = C) ∧
    (load_bans (save_bans cfg s C).1 = C) ∧
    (load_bans (run_pending (save_bans cfg s C).1 (save_bans cfg s C).2) = C) ∧
    (load_config (save_config cfg s C).1 = C) ∧
    (load_config (run_pending (save_config cfg s C).1 (save_config cfg s C).2) = C) := by
  have hw : load_warnings (save_warnings cfg s C).1 = normalize_warnings (Json.obj C) := by
    rw [load_warnings, save_warnings]
    simp only []
    rw [py_or_eq]
    exact normalize_warnings_idem (Json.obj C)
  refine ⟨hw, ?_, ?_, ?_, ?_, ?_, ?_, ?_, ?_, ?_, ?_⟩
  · intro hshape
    rw [hw]
    exact normalize_warnings_of_normal C hshape
  · rw [load_warnings, (run_pending_caches _ _).1]
    rw [save_warnings]
    simp only []
    rw [py_or_eq]
    exact normalize_warnings_idem (Json.obj C)
  · rw [load_tickets, save_tickets]
    simp only []
    exact py_or_eq C
  · rw [load_tickets, (run_pending_caches _ _).2.1, save_tickets]
    simp only []
    exact py_or_eq C
  · rw [load_optins, save_optins]
    simp only []
    exact py_or_eq C
  · rw [load_optins, (run_pending_caches _ _).2.2.1, save_optins]
    simp only []
    exact py_or_eq C
  · rw [load_bans, save_bans]
    simp only []
    exact py_or_eq C
  · rw [load_bans, (run_pending_caches _ _).2.2.2.1, save_bans]
    simp only []
    exact py_or_eq C
  · rw [load_config, save_config]
    simp only []
    exact py_or_eq C
  · rw [load_config, (run_pending_caches _ _).2.2.2.2, save_config]
    simp only []
    exact py_or_eq C

/-- **C3** (witness).  Concrete instance of the hypothesis-guarded conjunct:
the sample warnings payload is in normalized shape and reads back unchanged
right after the save. -/
theorem c3_cache_before_durability_witness :
    normal_warnings_shape warn_payload = true ∧
    load_warnings (save_warnings cfg_sample s_sample warn_payload).1 = warn_payload :=
  ⟨by decide,
   (c3_cache_before_durability cfg_sample s_sample warn_payload).2.1 (by decide)⟩

/-- **C10**.  `_normalize_warnings` is total (it is a Lean function) and its
output is always in normalized shape: values are objects of users whose
values are lists holding only objects (keys are strings by construction of
the model); applying it twice equals applying it once; `load_warnings`
always returns data of this shape whatever the cache holds, and
`save_warnings` only ever stores data of this shape. -/
theorem c10_normalize_warnings_total_idem :
    (∀ raw : Json, normal_warnings_shape (normalize_warnings raw) = true) ∧
    (∀ raw : Json,
      normalize_warnings (Json.obj (normalize_warnings raw)) = normalize_warnings raw) ∧
    (∀ s : StorageState, normal_warnings_shape (load_warnings s) = true) ∧
    (∀ (cfg : Config) (s : StorageState) (data : JObj),
      normal_warnings_shape ((save_warnings cfg s data).1.warn_cache) = true) :=
  ⟨normalize_warnings_shape_ok, normalize_warnings_idem,
   fun _ => normalize_warnings_shape_ok _,
   fun _ _ data => normalize_warnings_shape_ok (Json.obj data)⟩

theorem get_some_iff (w : World) (cid : Nat) (h : (get_text_channel w cid).isSome) :
    get_text_channel w cid = some (channel_msgs w cid) := by
  cases hg : get_text_channel w cid with
  | none => rw [hg] at h; simp at h
  | some msgs => simp [channel_msgs, hg]

theorem snap_msg_no_att {botId : Nat} {fname : String} {m : Message}
    (h : m.attachments = []) : snap_msg botId fname m = false := by
  simp [snap_msg, h]

theorem ensure_shape (w : World) (cid : Nat) (tag : String) :
    (ensure_index_message w cid tag).2.botId = w.botId ∧
    w.nextMid ≤ (ensure_index_message w cid tag).2.nextMid ∧
    (∀ c2, c2 ≠ cid → get_text_channel (ensure_index_message w cid tag).2 c2 =
      get_text_channel w c2) ∧
    (channel_msgs (ensure_index_message w cid tag).2 cid = channel_msgs w cid ∨
     (channel_msgs (ensure_index_message w cid tag).2 cid =
        (⟨w.nextMid, w.botId, "[storage] " ++ tag, [], true⟩ : Message) :: channel_msgs w cid ∧
      (ensure_index_message w cid tag).2.nextMid = w.nextMid + 1 ∧
      (get_text_channel w cid).isSome)) := by
  cases hf : find_pinned_marker w.botId tag (channel_msgs w cid) with
  | some m =>
    rw [ensure_found hf]
    exact ⟨rfl, le_rfl, fun _ _ => rfl, Or.inl rfl⟩
  | none =>
    rw [ensure_not_found hf]
    refine ⟨rfl, by simp [post_message], ?_, ?_⟩
    · intro c2 hc2
      rw [get_after_post, if_neg hc2]
    · cases hg : get_text_channel w cid with
      | none =>
        left
        simp [channel_msgs, get_after_post, hg]
      | some msgs =>
        right
        refine ⟨?_, rfl, by simp [hg]⟩
        simp [channel_msgs, get_after_post, hg]

theorem ensure_preserves_some {w : World} {cid : Nat} (tag : String)
    (h : (get_text_channel w cid).isSome) :
    (get_text_channel (ensure_index_message w cid tag).2 cid).isSome := by
  cases hf : find_pinned_marker w.botId tag (channel_msgs w cid) with
  | some m => rw [ensure_found hf]; exact h
  | none =>
    rw [ensure_not_found hf, get_after_post, if_pos rfl]
    cases hg : get_text_channel w cid with
    | none => rw [hg] at h; simp at h
    | some msgs => simp [hg]

theorem find_latest_attachment_spec (botId : Nat) (fname : String) :
    ∀ (msgs : List Message) (a : Attachment),
      find_latest_attachment botId fname msgs = some a →
      ∃ m ∈ msgs, m.author = botId ∧ a ∈ m.attachments ∧ a.filename = fname := by
  intro msgs
  induction msgs with
  | nil => intro a h; simp [find_latest_attachment] at h
  | cons m rest ih =>
    intro a h
    rw [find_latest_attachment] at h
    by_cases hb : m.author = botId
    · rw [if_pos hb] at h
      cases hfa : m.attachments.find? (fun a => a.filename == fname) with
      | some a2 =>
        rw [hfa] at h
        simp only [Option.some_inj] at h
        subst h
        refine ⟨m, by simp, hb, List.mem_of_find?_eq_some hfa, ?_⟩
        have := List.find?_some hfa
        simpa using this
      | none =>
        rw [hfa] at h
        obtain ⟨m2, hm2, hrest⟩ := ih a h
        exact ⟨m2, by simp [hm2], hrest⟩
    · rw [if_neg hb] at h
      obtain ⟨m2, hm2, hrest⟩ := ih a h
      exact ⟨m2, by simp [hm2], hrest⟩

theorem find_latest_attachment_none (botId : Nat) (fname : String) :
    ∀ (msgs : List Message),
      (∀ m ∈ msgs, ∀ a ∈ m.attachments, a.filename ≠ fname) →
      find_latest_attachment botId fname msgs = none := by
  intro msgs
  induction msgs with
  | nil => intro _; rfl
  | cons m rest ih =>
    intro h
    rw [find_latest_attachment]
    have hfa : m.attachments.find? (fun a => a.filename == fname) = none := by
      rw [List.find?_eq_none]
      intro a ha
      simpa using h m (by simp) a ha
    by_cases hb : m.author = botId
    · rw [if_pos hb, hfa]
      exact ih (fun m2 hm2 => h m2 (by simp [hm2]))
    · rw [if_neg hb]
      exact ih (fun m2 hm2 => h m2 (by simp [hm2]))

theorem load_one_world (w : World) (name : String) (cid : Nat) :
    (load_one w name cid).2 =
      if (get_text_channel w cid).isSome then (ensure_index_message w cid (name ++ ".json")).2
      else w := by
  rw [load_one]
  cases hg : get_text_channel w cid with
  | none => simp [hg]
  | some msgs =>
    simp only [hg, Option.isSome_some, if_true]
    cases hfl : find_latest_attachment
        ((ensure_index_message w cid (name ++ ".json")).2).botId (name ++ ".json")
        ((channel_msgs ((ensure_index_message w cid (name ++ ".json")).2) cid).take 100) with
    | none => simp [hfl]
    | some att =>
      cases hp : parse_json att.payload with
      | none => simp [hfl, hp]
      | some v => cases v <;> simp [hfl, hp]

theorem load_one_val_eq (w : World) (name : String) (cid : Nat)
    (h : (get_text_channel w cid).isSome) :
    (load_one w name cid).1 =
      match find_latest_attachment
          ((ensure_index_message w cid (name ++ ".json")).2).botId (name ++ ".json")
          ((channel_msgs ((ensure_index_message w cid (name ++ ".json")).2) cid).take 100) with
      | none => []
      | some att =>
          match parse_json att.payload with
          | some (Json.obj kvs) => kvs
          | some _ => []
          | none => [] := by
  rw [load_one, get_some_iff w cid h]
  cases hfl : find_latest_attachment
      ((ensure_index_message w cid (name ++ ".json")).2).botId (name ++ ".json")
      ((channel_msgs ((ensure_index_message w cid (name ++ ".json")).2) cid).take 100) with
  | none => simp [hfl]
  | some att =>
    cases hp : parse_json att.payload with
    | none => simp [hfl, hp]
    | some v => cases v <;> simp [hfl, hp]

/-- Attachments visible after `_ensure_index_message` come from the original
channel: the marker the call may create carries none. -/
theorem ensure_att_origin (w : World) (cid : Nat) (tag : String) :
    ∀ m ∈ channel_msgs (ensure_index_message w cid tag).2 cid, ∀ a ∈ m.attachments,
      ∃ m0 ∈ channel_msgs w cid, a ∈ m0.attachments := by
  intro m hm a ha
  rcases (ensure_shape w cid tag).2.2.2 with hsame | ⟨hcons, _, _⟩
  · rw [hsame] at hm
    exact ⟨m, hm, ha⟩
  · rw [hcons] at hm
    rcases List.mem_cons.mp hm with hmk | hold
    · subst hmk
      simp at ha
    · exact ⟨m, hold, ha⟩

/-- **C6**.  Every failure category degrades without propagating: a zero
channel handle schedules no persistence job (no network call) while the
synchronous cache update still happens and the world is untouched (shown for
the warnings and tickets datasets; the remaining datasets use the same
`_schedule_save`); an unresolvable channel, a channel with no matching
snapshot attachment, and a channel whose matching attachments are all either
undecodable or decode to a non-object all make the load return the empty
mapping. -/
theorem c6_graceful_degradation :
    (∀ (cfg : Config) (s : StorageState) (C : JObj), cfg.storage_warn_ch_id = 0 →
      (save_warnings cfg s C).2 = none ∧
      (save_warnings cfg s C).1.warn_cache = normalize_warnings (Json.obj C) ∧
      (save_warnings cfg s C).1.world = s.world) ∧
    (∀ (cfg : Config) (s : StorageState) (C : JObj), cfg.storage_tickets_ch_id = 0 →
      (save_tickets cfg s C).2 = none ∧
      (save_tickets cfg s C).1.tickets_cache = C ∧
      (save_tickets cfg s C).1.world = s.world) ∧
    (∀ (w : World) (name : String) (cid : Nat), get_text_channel w cid = none →
      load_one w name cid = ([], w)) ∧
    (∀ (w : World) (name : String) (cid : Nat),
      (∀ m ∈ channel_msgs w cid, ∀ a ∈ m.attachments, a.filename ≠ name ++ ".json") →
      (load_one w name cid).1 = []) ∧
    (∀ (w : World) (name : String) (cid : Nat),
      (∀ m ∈ channel_msgs w cid, ∀ a ∈ m.attachments, a.filename = name ++ ".json" →
        parse_json a.payload = none ∨
        ∃ v, parse_json a.payload = some v ∧ is_json_obj v = false) →
      (load_one w name cid).1 = []) := by
  refine ⟨?_, ?_, ?_, ?_, ?_⟩
  · intro cfg s C h
    refine ⟨?_, rfl, rfl⟩
    rw [save_warnings]
    simp only [h]
    rw [schedule_save]
    simp
  · intro cfg s C h
    refine ⟨?_, rfl, rfl⟩
    rw [save_tickets]
    simp only [h]
    rw [schedule_save]
    simp
  · intro w name cid h
    rw [load_one, h]
  · intro w name cid h
    by_cases hch : (get_text_channel w cid).isSome
    · rw [load_one_val_eq w name cid hch]
      rw [find_latest_attachment_none]
      intro m hm a ha
      obtain ⟨m0, hm0, ha0⟩ := ensure_att_origin w cid (name ++ ".json") m
        (List.mem_of_mem_take hm) a ha
      exact h m0 hm0 a ha0
    · rw [load_one]
      cases hg : get_text_channel w cid with
      | none => rfl
      | some msgs => rw [hg] at hch; simp at hch
  · intro w name cid h
    by_cases hch : (get_text_channel w cid).isSome
    · rw [load_one_val_eq w name cid hch]
      cases hfl : find_latest_attachment
          ((ensure_index_message w cid (name ++ ".json")).2).botId (name ++ ".json")
          ((channel_msgs ((ensure_index_message w cid (name ++ ".json")).2) cid).take 100) with
      | none => rfl
      | some att =>
        obtain ⟨m, hm, _, ha, hname⟩ := find_latest_attachment_spec _ _ _ att hfl
        obtain ⟨m0, hm0, ha0⟩ := ensure_att_origin w cid (name ++ ".json") m
          (List.mem_of_mem_take hm) att ha
        rcases h m0 hm0 att ha0 hname with hp | ⟨v, hp, hobj⟩
        · simp [hp]
        · cases v with
          | obj kvs => simp [is_json_obj] at hobj
          | null => simp [hp]
          | bool b => simp [hp]
          | num n => simp [hp]
          | str t => simp [hp]
          | arr xs => simp [hp]
    · rw [load_one]
      cases hg : get_text_channel w cid with
      | none => rfl
      | some msgs => rw [hg] at hch; simp at hch

/-- A channel whose only matching attachments are malformed or non-object
payloads, for the concrete degradation checks. -/
def w_bad : World :=
  ⟨7,
   [(4, [⟨1, 7, "junk", [⟨"bans.json", "not json".data⟩], false⟩]),
    (8, [⟨2, 7, "arr", [⟨"tickets.json", "[1, 2]".data⟩], false⟩])],
   9⟩

/-- **C6** (witness).  Concrete instances: a zero warnings handle schedules
nothing and still updates the cache; an unknown channel id loads empty; a
channel without a tickets attachment loads empty; a channel whose bans
attachment does not decode, and one whose tickets attachment decodes to an
array, both load empty. -/
theorem c6_graceful_degradation_witness :
    ((save_warnings ⟨1, 0, 0, 0, 0, 0⟩ s_sample warn_payload).2 = none ∧
     (save_warnings ⟨1, 0, 0, 0, 0, 0⟩ s_sample warn_payload).1.warn_cache =
       normalize_warnings (Json.obj warn_payload) ∧
     (save_warnings ⟨1, 0, 0, 0, 0, 0⟩ s_sample warn_payload).1.world = s_sample.world) ∧
    load_one w_sample "bans" 99 = ([], w_sample) ∧
    (load_one w_sample "tickets" 6).1 = [] ∧
    (load_one w_bad "bans" 4).1 = [] ∧
    (load_one w_bad "tickets" 8).1 = [] :=
  ⟨c6_graceful_degradation.1 ⟨1, 0, 0, 0, 0, 0⟩ s_sample warn_payload rfl,
   c6_graceful_degradation.2.2.1 w_sample "bans" 99 (by decide),
   c6_graceful_degradation.2.2.2.1 w_sample "tickets" 6 (by decide),
   c6_graceful_degradation.2.2.2.2 w_bad "bans" 4 (by decide),
   c6_graceful_degradation.2.2.2.2 w_bad "tickets" 8 (by decide)⟩

/-- An accessible but empty storage channel. -/
def w_empty : World := ⟨7, [(3, [])], 0⟩

/-- A channel that already holds a pinned warnings marker next to a
snapshot, so the read path finds everything it needs. -/
def w_marked : World :=
  ⟨7,
   [(6, [⟨1, 7, "[storage] update warnings.json",
      [⟨"warnings.json", ser_json (Json.obj warn_payload)⟩], false⟩,
     ⟨0, 7, "[storage] warnings.json", [], true⟩])],
   10⟩

/-- **C7** (counterexample).  Loading a dataset from an accessible channel
that has no pinned marker mutates the channel: `_load_one` calls
`_ensure_index_message`, which sends and pins a marker message, so the world
after the read differs from the world before it. -/
theorem c7_counterexample : ¬ ((load_one w_empty "warnings" 3).2 = w_empty) := by
  decide

/-- **C7** (amended).  The read path never deletes a message and never
uploads a snapshot: when a pinned marker matching the dataset already exists
the load leaves the world exactly unchanged; otherwise its only mutation is
prepending one pinned marker message that carries no attachments to the
dataset's channel, and every other channel is untouched in all cases. -/
theorem c7_read_path_mutation_bound (w : World) (name : String) (cid : Nat) :
    ((find_pinned_marker w.botId (name ++ ".json") (channel_msgs w cid)).isSome →
      (load_one w name cid).2 = w) ∧
    (∀ c2, c2 ≠ cid → get_text_channel (load_one w name cid).2 c2 = get_text_channel w c2) ∧
    (channel_msgs (load_one w name cid).2 cid = channel_msgs w cid ∨
      ∃ mk : Message, mk.attachments = [] ∧ mk.pinned = true ∧
        channel_msgs (load_one w name cid).2 cid = mk :: channel_msgs w cid) := by
  rw [load_one_world]
  by_cases hch : (get_text_channel w cid).isSome
  · rw [if_pos hch]
    refine ⟨?_, (ensure_shape w cid (name ++ ".json")).2.2.1, ?_⟩
    · intro hm
      cases hf : find_pinned_marker w.botId (name ++ ".json") (channel_msgs w cid) with
      | none => rw [hf] at hm; simp at hm
      | some m => rw [ensure_found hf]
    · rcases (ensure_shape w cid (name ++ ".json")).2.2.2 with hsame | ⟨hcons, _, _⟩
      · exact Or.inl hsame
      · exact Or.inr ⟨_, rfl, rfl, hcons⟩
  · rw [if_neg hch]
    exact ⟨fun _ => rfl, fun _ _ => rfl, Or.inl rfl⟩

/-- **C7** (witness).  With the marker already pinned in `w_marked` the load
is fully read-only, and a read of channel 6 in `w_sample` leaves channel 5
untouched. -/
theorem c7_read_path_mutation_bound_witness :
    (load_one w_marked "warnings" 6).2 = w_marked ∧
    get_text_channel (load_one w_sample "warnings" 6).2 5 = get_text_channel w_sample 5 :=
  ⟨(c7_read_path_mutation_bound w_marked "warnings" 6).1 (by decide),
   (c7_read_path_mutation_bound w_sample "warnings" 6).2.1 5 (by decide)⟩

/-- **C8**.  With pin listing accessible (the modelled success semantics)
`_ensure_index_message` is idempotent: the second call on the same channel
and tag returns the very message reference the first call produced and
leaves the world unchanged, so no duplicate pinned marker is ever created. -/
theorem c8_ensure_marker_idempotent (w : World) (cid : Nat) (tag : String)
    (hch : (get_text_channel w cid).isSome) :
    (ensure_index_message (ensure_index_message w cid tag).2 cid tag).1 =
      (ensure_index_message w cid tag).1 ∧
    (ensure_index_message (ensure_index_message w cid tag).2 cid tag).2 =
      (ensure_index_message w cid tag).2 := by
  cases hf : find_pinned_marker w.botId tag (channel_msgs w cid) with
  | some m =>
    have h1 := ensure_found hf
    constructor <;> simp [h1]
  | none =>
    have h1 := ensure_not_found hf
    set mk : Message := ⟨w.nextMid, w.botId, "[storage] " ++ tag, [], true⟩ with hmk
    have hw1 : (ensure_index_message w cid tag).2 =
        (post_message w cid ("[storage] " ++ tag) [] true).2 := by rw [h1]
    have hbot : (ensure_index_message w cid tag).2.botId = w.botId := by rw [hw1]; rfl
    have hchan : channel_msgs (ensure_index_message w cid tag).2 cid =
        mk :: channel_msgs w cid := by
      rw [hw1]
      rw [show channel_msgs (post_message w cid ("[storage] " ++ tag) [] true).2 cid =
          (get_text_channel (post_message w cid ("[storage] " ++ tag) [] true).2 cid).getD []
          from rfl]
      rw [get_after_post]
      simp [get_some_iff w cid hch, hmk]
    have hfind : find_pinned_marker ((ensure_index_message w cid tag).2).botId tag
        (channel_msgs (ensure_index_message w cid tag).2 cid) = some mk := by
      rw [hbot, hchan, find_pinned_marker, List.find?_cons]
      have hcond : (mk.pinned && (mk.author == w.botId) && str_contains mk.content tag)
          = true := by
        simp [hmk, str_contains_marker tag]
      rw [hcond]
    rw [ensure_found hfind]
    have hfst : (ensure_index_message w cid tag).1 = mk := by rw [h1]; rfl
    exact ⟨hfst.symm, rfl⟩

/-- **C8** (witness).  On the sample channel (which has no marker yet) the
second `ensure` call returns the marker the first call created, with no
second marker posted. -/
theorem c8_ensure_marker_idempotent_witness :
    (ensure_index_message (ensure_index_message w_sample 6 "warnings.json").2 6
      "warnings.json").1 = (ensure_index_message w_sample 6 "warnings.json").1 ∧
    (ensure_index_message (ensure_index_message w_sample 6 "warnings.json").2 6
      "warnings.json").2 = (ensure_index_message w_sample 6 "warnings.json").2 :=
  c8_ensure_marker_idempotent w_sample 6 "warnings.json" (by decide)

/-- **C9**.  Every history scan filters on the bot's own authorship: a
snapshot returned by `_find_latest_attachment` always comes from a message
authored by the bot, every message the compaction loop of `_save_one` marks
for deletion is authored by the bot, and a pinned message reused as a marker
by `_ensure_index_message` is authored by the bot — a message from any other
author is never returned, deleted, or reused, whatever it carries. -/
theorem c9_authorship_filter :
    (∀ (botId : Nat) (fname : String) (msgs : List Message) (a : Attachment),
      find_latest_attachment botId fname msgs = some a →
      ∃ m ∈ msgs, m.author = botId ∧ a ∈ m.attachments) ∧
    (∀ (botId : Nat) (fname : String) (k : Nat) (msgs : List Message),
      ∀ m ∈ compact_scan botId fname k msgs, m.author = botId) ∧
    (∀ (botId : Nat) (tag : String) (msgs : List Message) (m : Message),
      find_pinned_marker botId tag msgs = some m → m.author = botId) := by
  refine ⟨?_, ?_, ?_⟩
  · intro botId fname msgs a h
    obtain ⟨m, hm, hb, ha, _⟩ := find_latest_attachment_spec botId fname msgs a h
    exact ⟨m, hm, hb, ha⟩
  · intro botId fname k msgs m hm
    rw [compact_scan_eq] at hm
    have hmem := List.mem_of_mem_drop hm
    have := (List.mem_filter.mp hmem).2
    rw [snap_msg] at this
    simp only [Bool.and_eq_true, beq_iff_eq] at this
    exact this.1
  · intro botId tag msgs m h
    have := List.find?_some h
    simp only [Bool.and_eq_true, beq_iff_eq] at this
    exact this.1.2

/-- **C9** (witness).  Concrete scans: the snapshot found in `w_sample`'s
warnings channel comes from a bot-authored message; the victim selected by a
compaction scan over four snapshot messages is bot-authored; the pinned
marker found in `w_marked` is bot-authored. -/
theorem c9_authorship_filter_witness :
    (∃ m ∈ channel_msgs w_sample 6, m.author = 7 ∧
      (⟨"warnings.json", ser_json (Json.obj warn_payload)⟩ : Attachment) ∈ m.attachments) ∧
    (⟨4, 7, "s4", [⟨"bans.json", "null".data⟩], false⟩ : Message).author = 7 ∧
    (⟨0, 7, "[storage] warnings.json", [], true⟩ : Message).author = 7 :=
  ⟨c9_authorship_filter.1 7 "warnings.json" (channel_msgs w_sample 6) _ (by decide),
   c9_authorship_filter.2.1 7 "bans.json" 0
     [⟨1, 7, "s1", [⟨"bans.json", "null".data⟩], false⟩,
      ⟨2, 7, "s2", [⟨"bans.json", "null".data⟩], false⟩,
      ⟨3, 7, "s3", [⟨"bans.json", "null".data⟩], false⟩,
      ⟨4, 7, "s4", [⟨"bans.json", "null".data⟩], false⟩]
     ⟨4, 7, "s4", [⟨"bans.json", "null".data⟩], false⟩ (by decide),
   c9_authorship_filter.2.2 7 "warnings.json" (channel_msgs w_marked 6)
     ⟨0, 7, "[storage] warnings.json", [], true⟩ (by decide)⟩

/-- Well-formed channel: every message id is below the world's fresh-id
counter and no two messages share an id (the platform assigns unique,
monotonically growing ids). -/
def wf_channel (w : World) (cid : Nat) : Prop :=
  (∀ m ∈ channel_msgs w cid, m.mid < w.nextMid) ∧
  (channel_msgs w cid).Pairwise (fun a b => a.mid ≠ b.mid)

theorem channel_msgs_after_post (w : World) (cid : Nat) (content : String)
    (atts : List Attachment) (p : Bool) (h : (get_text_channel w cid).isSome) :
    channel_msgs (post_message w cid content atts p).2 cid =
      (⟨w.nextMid, w.botId, content, atts, p⟩ : Message) :: channel_msgs w cid := by
  rw [show channel_msgs (post_message w cid content atts p).2 cid =
      (get_text_channel (post_message w cid content atts p).2 cid).getD [] from rfl]
  rw [get_after_post]
  simp [get_some_iff w cid h]

theorem channel_msgs_after_delete (w : World) (cid : Nat) (victims : List Message) :
    channel_msgs (delete_messages w cid victims) cid =
      (channel_msgs w cid).filter (fun m => victims.all (fun v => v.mid != m.mid)) := by
  rw [show channel_msgs (delete_messages w cid victims) cid =
      (get_text_channel (delete_messages w cid victims) cid).getD [] from rfl]
  rw [get_after_delete]
  cases hg : get_text_channel w cid with
  | none => simp [channel_msgs, hg]
  | some msgs => simp [channel_msgs, hg]

theorem delete_preserves_some {w : World} {cid : Nat} (victims : List Message)
    (h : (get_text_channel w cid).isSome) :
    (get_text_channel (delete_messages w cid victims) cid).isSome := by
  rw [get_after_delete, if_pos rfl]
  cases hg : get_text_channel w cid with
  | none => rw [hg] at h; simp at h
  | some msgs => simp

theorem wf_after_ensure {w : World} {cid : Nat} (tag : String)
    (hwf : wf_channel w cid) :
    wf_channel (ensure_index_message w cid tag).2 cid := by
  obtain ⟨hb, hnd⟩ := hwf
  rcases (ensure_shape w cid tag).2.2.2 with hsame | ⟨hcons, hmid, _⟩
  · refine ⟨?_, by rw [hsame]; exact hnd⟩
    intro m hm
    rw [hsame] at hm
    exact lt_of_lt_of_le (hb m hm) (ensure_shape w cid tag).2.1
  · refine ⟨?_, ?_⟩
    · intro m hm
      rw [hcons] at hm
      rw [hmid]
      rcases List.mem_cons.mp hm with hmk | hold
      · subst hmk; simp
      · exact lt_trans (hb m hold) (by omega)
    · rw [hcons]
      refine List.Pairwise.cons ?_ hnd
      intro m hm
      have := hb m hm
      simp only []
      omega

theorem fla_step_hit {botId : Nat} {fname : String} {m : Message} {a : Attachment}
    (hb : m.author = botId) (ha : m.attachments.find? (fun a => a.filename == fname) = some a)
    (rest : List Message) :
    find_latest_attachment botId fname (m :: rest) = some a := by
  rw [find_latest_attachment, if_pos hb, ha]

theorem fla_step_skip {m : Message} (hatt : m.attachments = []) (botId : Nat) (fname : String)
    (rest : List Message) :
    find_latest_attachment botId fname (m :: rest) = find_latest_attachment botId fname rest := by
  rw [find_latest_attachment, hatt]
  by_cases hb : m.author = botId
  · rw [if_pos hb]; rfl
  · rw [if_neg hb]

theorem post_preserves_some {w : World} {cid : Nat} (content : String)
    (atts : List Attachment) (p : Bool) (h : (get_text_channel w cid).isSome) :
    (get_text_channel (post_message w cid content atts p).2 cid).isSome := by
  rw [get_after_post, if_pos rfl]
  cases hg : get_text_channel w cid with
  | none => rw [hg] at h; simp at h
  | some msgs => simp

theorem save_one_shape (w : World) (name : String) (cid : Nat) (C : JObj)
    (hch : (get_text_channel w cid).isSome)
    (hwf : wf_channel w cid) :
    ∃ rest : List Message,
      channel_msgs (save_one w name cid C) cid =
        (⟨(ensure_index_message w cid (name ++ ".json")).2.nextMid, w.botId,
          "[storage] update " ++ name ++ ".json",
          [⟨name ++ ".json", ser_json (Json.obj C)⟩], false⟩ : Message) :: rest ∧
      (save_one w name cid C).botId = w.botId ∧
      (get_text_channel (save_one w name cid C) cid).isSome := by
  have hch1 : (get_text_channel (ensure_index_message w cid (name ++ ".json")).2 cid).isSome :=
    ensure_preserves_some _ hch
  have hbot1 : (ensure_index_message w cid (name ++ ".json")).2.botId = w.botId :=
    (ensure_shape w cid (name ++ ".json")).1
  have hbound1 : ∀ m ∈ channel_msgs (ensure_index_message w cid (name ++ ".json")).2 cid,
      m.mid < (ensure_index_message w cid (name ++ ".json")).2.nextMid :=
    (wf_after_ensure (name ++ ".json") hwf).1
  set w1 := (ensure_index_message w cid (name ++ ".json")).2 with hw1
  set w2 := (post_message w1 cid ("[storage] update " ++ name ++ ".json")
    [⟨name ++ ".json", ser_json (Json.obj C)⟩] false).2 with hw2
  set snap : Message := ⟨w1.nextMid, w1.botId, "[storage] update " ++ name ++ ".json",
    [⟨name ++ ".json", ser_json (Json.obj C)⟩], false⟩ with hsnap
  have hchan2 : channel_msgs w2 cid = snap :: channel_msgs w1 cid :=
    channel_msgs_after_post w1 cid _ _ _ hch1
  have hsave : save_one w name cid C = delete_messages w2 cid
      (compact_scan w2.botId (name ++ ".json") 0 ((channel_msgs w2 cid).take 200)) := by
    rw [save_one, get_some_iff w cid hch]
  set victims := compact_scan w2.botId (name ++ ".json") 0 ((channel_msgs w2 cid).take 200)
    with hvict
  have hpred : snap_msg w2.botId (name ++ ".json") snap = true := by
    have : w2.botId = w1.botId := rfl
    simp [snap_msg, hsnap, this]
  have hvsmall : ∀ v ∈ victims, v.mid < w1.nextMid := by
    intro v hv
    rw [hvict, compact_scan_eq, hchan2, List.take_succ_cons, List.filter_cons,
      if_pos hpred] at hv
    rw [show 3 - 0 = 2 + 1 by rfl, List.drop_succ_cons] at hv
    have hvf := List.mem_of_mem_drop hv
    have hvt := (List.mem_filter.mp hvf).1
    exact hbound1 v (List.mem_of_mem_take hvt)
  have hkeep : (victims.all (fun v => v.mid != snap.mid)) = true := by
    rw [List.all_eq_true]
    intro v hv
    have := hvsmall v hv
    simp only [hsnap, bne_iff_ne, ne_eq]
    omega
  refine ⟨(channel_msgs w1 cid).filter (fun m => victims.all (fun v => v.mid != m.mid)),
    ?_, ?_, ?_⟩
  · rw [hsave, channel_msgs_after_delete, hchan2, List.filter_cons, if_pos hkeep]
    rw [show snap = (⟨w1.nextMid, w.botId, "[storage] update " ++ name ++ ".json",
      [⟨name ++ ".json", ser_json (Json.obj C)⟩], false⟩ : Message) from by
        rw [hsnap, hbot1]]
  · rw [hsave, delete_botId]
    exact hbot1
  · rw [hsave]
    exact delete_preserves_some _ (post_preserves_some _ _ _ hch1)

/-- **C4**.  Writing a JSON-object content and then reading with a fresh
reader over the same channel returns the same value: after `_save_one(name,
cid, C)` a `_load_one(name, cid)` yields `C`, and the serializer /
deserializer composition on the `<name>.json` attachment is the identity on
JSON objects.  (The model's objects are association lists; Python dict
contents, which have unique keys, embed injectively, and the loaded value is
returned key-for-key in insertion order.) -/
theorem c4_write_read_round_trip (w : World) (name : String) (cid : Nat) (C : JObj)
    (hch : (get_text_channel w cid).isSome) (hwf : wf_channel w cid) :
    (load_one (save_one w name cid C) name cid).1 = C ∧
    parse_json (ser_json (Json.obj C)) = some (Json.obj C) := by
  obtain ⟨rest, hchan, hbot, hsome⟩ := save_one_shape w name cid C hch hwf
  refine ⟨?_, parse_ser_json (Json.obj C)⟩
  rw [load_one_val_eq (save_one w name cid C) name cid hsome]
  have hbot4 : (ensure_index_message (save_one w name cid C) cid (name ++ ".json")).2.botId
      = w.botId := by
    rw [(ensure_shape (save_one w name cid C) cid (name ++ ".json")).1, hbot]
  have hhit : ∀ tail : List Message,
      find_latest_attachment
        (ensure_index_message (save_one w name cid C) cid (name ++ ".json")).2.botId
        (name ++ ".json")
        ((⟨(ensure_index_message w cid (name ++ ".json")).2.nextMid, w.botId,
          "[storage] update " ++ name ++ ".json",
          [⟨name ++ ".json", ser_json (Json.obj C)⟩], false⟩ : Message) :: tail) =
        some ⟨name ++ ".json", ser_json (Json.obj C)⟩ := by
    intro tail
    refine fla_step_hit ?_ ?_ tail
    · rw [hbot4]
    · simp
  rcases (ensure_shape (save_one w name cid C) cid (name ++ ".json")).2.2.2 with
    hsame | ⟨hcons, _, _⟩
  · rw [hsame, hchan, List.take_succ_cons, hhit]
    simp [parse_ser_json]
  · rw [hcons, hchan, List.take_succ_cons, fla_step_skip rfl, List.take_succ_cons, hhit]
    simp [parse_ser_json]

/-- Concrete dataset content mirroring the spec's test scenario. -/
def scenario_payload : JObj :=
  [("guild:42", Json.obj [("user:7", Json.arr [Json.obj
    [("reason", Json.str "spam"), ("moderator_id", Json.num 7),
     ("timestamp", Json.str "2024-01-01T00:00:00Z")]])])]

/-- **C4** (witness).  The spec's concrete scenario: saving the warnings
content on the marked sample channel and re-reading it returns the value
unchanged. -/
theorem c4_write_read_round_trip_witness :
    (load_one (save_one w_marked "warnings" 6 scenario_payload) "warnings" 6).1 =
      scenario_payload ∧
    parse_json (ser_json (Json.obj scenario_payload)) = some (Json.obj scenario_payload) :=
  c4_write_read_round_trip w_marked "warnings" 6 scenario_payload (by decide)
    ⟨by decide, by decide⟩


theorem length_filter_partition (l : List Message) (p : Message → Bool) :
    (l.filter p).length + (l.filter (fun a => !p a)).length = l.length := by
  induction l with
  | nil => rfl
  | cons a l ih =>
    by_cases h : p a <;> simp [List.filter_cons, h] <;> omega

theorem keep_iff_not_mem {msgs : List Message}
    (hnd : (msgs.map Message.mid).Nodup) {P : Message → Bool}
    {m : Message} (hm : m ∈ msgs) :
    ((((msgs.filter P).drop 3).all (fun v => v.mid != m.mid)) = true) ↔
      m ∉ (msgs.filter P).drop 3 := by
  rw [List.all_eq_true]
  constructor
  · intro h hmem
    have := h m hmem
    simp at this
  · intro hnm v hv
    have hvm : v ∈ msgs := List.mem_of_mem_filter (List.mem_of_mem_drop hv)
    simp only [bne_iff_ne, ne_eq]
    intro heq
    have hveq : v = m :=
      List.inj_on_of_nodup_map hnd (by simpa using hvm) (by simpa using hm) heq
    exact hnm (hveq ▸ hv)

theorem filter_keep_take_drop (keep : Message → Bool) (F : List Message)
    (h1 : ∀ m ∈ F.take 3, keep m = true)
    (h2 : ∀ m ∈ F.drop 3, keep m = false) :
    F.filter keep = F.take 3 := by
  conv_lhs => rw [← List.take_append_drop 3 F]
  rw [List.filter_append, List.filter_eq_self.mpr h1,
    List.filter_eq_nil_iff.mpr (fun a ha => by simp [h2 a ha]), List.append_nil]

theorem compact_kept {msgs : List Message} (hnd : (msgs.map Message.mid).Nodup)
    (P : Message → Bool) :
    ((msgs.filter (fun m =>
        (((msgs.filter P).drop 3).all (fun v => v.mid != m.mid)))).filter P)
      = (msgs.filter P).take 3 := by
  rw [List.filter_filter, List.filter_congr (fun a _ => Bool.and_comm _ _),
    ← List.filter_filter]
  refine filter_keep_take_drop _ _ ?_ ?_
  · intro m hm
    have hmem : m ∈ msgs := List.mem_of_mem_filter (List.mem_of_mem_take hm)
    rw [keep_iff_not_mem hnd hmem]
    have hFnd : (msgs.filter P).Nodup := by
      have hsub : List.Sublist ((msgs.filter P).map Message.mid) (msgs.map Message.mid) :=
        (List.filter_sublist msgs).map Message.mid
      exact List.Nodup.of_map _ (hnd.sublist hsub)
    exact fun hmem2 => List.disjoint_take_drop hFnd le_rfl hm hmem2
  · intro m hm
    have hmem : m ∈ msgs := List.mem_of_mem_filter (List.mem_of_mem_drop hm)
    cases hk : ((msgs.filter P).drop 3).all (fun v => v.mid != m.mid) with
    | false => rfl
    | true => exact absurd hm ((keep_iff_not_mem hnd hmem).mp hk)

theorem keep_of_not_snap {msgs : List Message} (hnd : (msgs.map Message.mid).Nodup)
    {P : Message → Bool} {m : Message} (hm : m ∈ msgs) (hPm : P m = false) :
    m ∈ msgs.filter (fun x =>
      (((msgs.filter P).drop 3).all (fun v => v.mid != x.mid))) := by
  rw [List.mem_filter]
  refine ⟨hm, ?_⟩
  rw [keep_iff_not_mem hnd hm]
  intro hmem2
  have hPt : P m = true := (List.mem_filter.mp (List.mem_of_mem_drop hmem2)).2
  rw [hPm] at hPt
  exact Bool.noConfusion hPt

theorem compact_len {msgs : List Message} (hnd : (msgs.map Message.mid).Nodup)
    (P : Message → Bool) :
    (msgs.filter (fun m =>
        (((msgs.filter P).drop 3).all (fun v => v.mid != m.mid)))).length
      = ((msgs.filter P).take 3).length + (msgs.length - (msgs.filter P).length) := by
  have hpart := length_filter_partition
    (msgs.filter (fun m => (((msgs.filter P).drop 3).all (fun v => v.mid != m.mid)))) P
  rw [compact_kept hnd P] at hpart
  have h2 : (msgs.filter (fun m =>
      (((msgs.filter P).drop 3).all (fun v => v.mid != m.mid)))).filter (fun a => !P a)
      = msgs.filter (fun a => !P a) := by
    rw [List.filter_filter, List.filter_congr (fun a _ => Bool.and_comm _ _),
      ← List.filter_filter]
    refine List.filter_eq_self.mpr ?_
    intro m hm
    have hmem : m ∈ msgs := List.mem_of_mem_filter hm
    have hPm : P m = false := by
      have := (List.mem_filter.mp hm).2
      simpa using this
    rw [keep_iff_not_mem hnd hmem]
    intro hmem2
    have hPt : P m = true := (List.mem_filter.mp (List.mem_of_mem_drop hmem2)).2
    rw [hPm] at hPt
    exact Bool.noConfusion hPt
  rw [h2] at hpart
  have h3 := length_filter_partition msgs P
  omega

theorem nodup_mids {l : List Message} (h : l.Pairwise (fun a b => a.mid ≠ b.mid)) :
    (l.map Message.mid).Nodup :=
  List.pairwise_map.mpr h

theorem list_contains_suffix (xs ys : List Char) : list_contains (xs ++ ys) ys = true := by
  induction xs with
  | nil =>
    cases ys with
    | nil => rfl
    | cons c cs =>
      show list_contains (c :: cs) (c :: cs) = true
      simp only [list_contains, List.isPrefixOf_iff_prefix.mpr (List.prefix_refl _),
        Bool.true_or]
  | cons x xs ih =>
    rw [List.cons_append]
    simp only [list_contains, ih, Bool.or_true]

theorem str_contains_append_self (pre tag : String) :
    str_contains (pre ++ tag) tag = true := by
  rw [str_contains, show (pre ++ tag).data = pre.data ++ tag.data from rfl]
  exact list_contains_suffix pre.data tag.data

def snap_count (botId : Nat) (fname : String) (msgs : List Message) : Nat :=
  (msgs.filter (snap_msg botId fname)).length

def clean_marker (botId : Nat) (tag : String) (msgs : List Message) : Prop :=
  ∃ m ∈ msgs, m.pinned = true ∧ m.author = botId ∧
    str_contains m.content tag = true ∧ m.attachments = []

instance (botId : Nat) (tag : String) (msgs : List Message) :
    Decidable (clean_marker botId tag msgs) :=
  decidable_of_iff
    (∃ m ∈ msgs, m.pinned = true ∧ m.author = botId ∧
      str_contains m.content tag = true ∧ m.attachments = []) Iff.rfl

def compaction_inv (w : World) (cid : Nat) (name : String) : Prop :=
  snap_count w.botId (name ++ ".json") (channel_msgs w cid) ≤ 3 ∧
  (channel_msgs w cid).length ≤
    196 + snap_count w.botId (name ++ ".json") (channel_msgs w cid) ∧
  (clean_marker w.botId (name ++ ".json") (channel_msgs w cid) ∨
    (channel_msgs w cid).length ≤
      195 + snap_count w.botId (name ++ ".json") (channel_msgs w cid))

theorem cm_find_isSome {botId : Nat} {tag : String} {msgs : List Message}
    (h : clean_marker botId tag msgs) :
    find_pinned_marker botId tag msgs ≠ none := by
  obtain ⟨m, hm, hp, ha, hc, _⟩ := h
  intro hnone
  rw [find_pinned_marker, List.find?_eq_none] at hnone
  exact hnone m hm (by simp [hp, ha, hc])

theorem wf_after_post {w : World} {cid : Nat} (content : String) (atts : List Attachment)
    (p : Bool) (h : (get_text_channel w cid).isSome) (hwf : wf_channel w cid) :
    wf_channel (post_message w cid content atts p).2 cid := by
  obtain ⟨hb, hp⟩ := hwf
  constructor
  · intro m hm
    rw [channel_msgs_after_post _ _ _ _ _ h] at hm
    rw [post_nextMid]
    rcases List.mem_cons.mp hm with rfl | hold
    · show w.nextMid < w.nextMid + 1
      omega
    · exact lt_trans (hb m hold) (by omega)
  · rw [channel_msgs_after_post _ _ _ _ _ h]
    refine List.Pairwise.cons ?_ hp
    intro m hm
    have := hb m hm
    show w.nextMid ≠ m.mid
    omega

theorem wf_after_delete {w : World} {cid : Nat} (victims : List Message)
    (hwf : wf_channel w cid) : wf_channel (delete_messages w cid victims) cid := by
  obtain ⟨hb, hp⟩ := hwf
  constructor
  · intro m hm
    rw [channel_msgs_after_delete] at hm
    rw [delete_nextMid]
    exact hb m (List.mem_of_mem_filter hm)
  · rw [channel_msgs_after_delete]
    exact List.Pairwise.sublist (List.filter_sublist _) hp

theorem save_one_step (w : World) (name : String) (cid : Nat) (C : JObj)
    (hch : (get_text_channel w cid).isSome) (hwf : wf_channel w cid)
    (hinv : compaction_inv w cid name) :
    (get_text_channel (save_one w name cid C) cid).isSome ∧
    wf_channel (save_one w name cid C) cid ∧
    compaction_inv (save_one w name cid C) cid name ∧
    (save_one w name cid C).botId = w.botId ∧
    (channel_msgs (save_one w name cid C) cid).find?
        (snap_msg (save_one w name cid C).botId (name ++ ".json")) =
      some ⟨(ensure_index_message w cid (name ++ ".json")).2.nextMid, w.botId,
        "[storage] update " ++ name ++ ".json",
        [⟨name ++ ".json", ser_json (Json.obj C)⟩], false⟩ := by
  obtain ⟨hK0, hL0, hCM0⟩ := hinv
  have hch1 : (get_text_channel (ensure_index_message w cid (name ++ ".json")).2 cid).isSome :=
    ensure_preserves_some _ hch
  have hwf1 : wf_channel (ensure_index_message w cid (name ++ ".json")).2 cid :=
    wf_after_ensure _ hwf
  have hbot1 : (ensure_index_message w cid (name ++ ".json")).2.botId = w.botId :=
    (ensure_shape w cid (name ++ ".json")).1
  have hstage1 : snap_count w.botId (name ++ ".json")
        (channel_msgs (ensure_index_message w cid (name ++ ".json")).2 cid)
      = snap_count w.botId (name ++ ".json") (channel_msgs w cid) ∧
      (channel_msgs (ensure_index_message w cid (name ++ ".json")).2 cid).length ≤
        196 + snap_count w.botId (name ++ ".json")
          (channel_msgs (ensure_index_message w cid (name ++ ".json")).2 cid) ∧
      (clean_marker w.botId (name ++ ".json")
          (channel_msgs (ensure_index_message w cid (name ++ ".json")).2 cid) ∨
        (channel_msgs (ensure_index_message w cid (name ++ ".json")).2 cid).length ≤
          195 + snap_count w.botId (name ++ ".json")
            (channel_msgs (ensure_index_message w cid (name ++ ".json")).2 cid)) := by
    cases hf : find_pinned_marker w.botId (name ++ ".json") (channel_msgs w cid) with
    | some m =>
      rw [ensure_found hf]
      exact ⟨rfl, hL0, hCM0⟩
    | none =>
      rw [ensure_not_found hf,
        channel_msgs_after_post w cid ("[storage] " ++ (name ++ ".json")) [] true hch]
      have hmkF : snap_msg w.botId (name ++ ".json")
          ⟨w.nextMid, w.botId, "[storage] " ++ (name ++ ".json"), [], true⟩ = false :=
        snap_msg_no_att rfl
      have hK1 : snap_count w.botId (name ++ ".json")
          ((⟨w.nextMid, w.botId, "[storage] " ++ (name ++ ".json"), [], true⟩ : Message)
            :: channel_msgs w cid)
          = snap_count w.botId (name ++ ".json") (channel_msgs w cid) := by
        simp [snap_count, List.filter_cons, hmkF]
      have hnCM : ¬ clean_marker w.botId (name ++ ".json") (channel_msgs w cid) :=
        fun hcm => cm_find_isSome hcm hf
      have hL0' : (channel_msgs w cid).length ≤
          195 + snap_count w.botId (name ++ ".json") (channel_msgs w cid) := by
        rcases hCM0 with h | h
        · exact absurd h hnCM
        · exact h
      refine ⟨hK1, ?_, Or.inl ?_⟩
      · rw [hK1]
        simp only [List.length_cons]
        omega
      · exact ⟨_, List.mem_cons_self _ _, rfl, rfl,
          str_contains_append_self "[storage] " (name ++ ".json"), rfl⟩
  have hsave : save_one w name cid C =
      delete_messages
        (post_message (ensure_index_message w cid (name ++ ".json")).2 cid
          ("[storage] update " ++ name ++ ".json")
          [⟨name ++ ".json", ser_json (Json.obj C)⟩] false).2 cid
        (compact_scan
          (post_message (ensure_index_message w cid (name ++ ".json")).2 cid
            ("[storage] update " ++ name ++ ".json")
            [⟨name ++ ".json", ser_json (Json.obj C)⟩] false).2.botId
          (name ++ ".json") 0
          ((channel_msgs
            (post_message (ensure_index_message w cid (name ++ ".json")).2 cid
              ("[storage] update " ++ name ++ ".json")
              [⟨name ++ ".json", ser_json (Json.obj C)⟩] false).2 cid).take 200)) := by
    rw [save_one, get_some_iff w cid hch]
  rw [hsave]
  generalize hw1eq : (ensure_index_message w cid (name ++ ".json")).2 = w1 at hch1 hwf1 hbot1 hstage1 ⊢
  have hch2 : (get_text_channel (post_message w1 cid
      ("[storage] update " ++ name ++ ".json")
      [⟨name ++ ".json", ser_json (Json.obj C)⟩] false).2 cid).isSome :=
    post_preserves_some _ _ _ hch1
  have hwf2 : wf_channel (post_message w1 cid
      ("[storage] update " ++ name ++ ".json")
      [⟨name ++ ".json", ser_json (Json.obj C)⟩] false).2 cid :=
    wf_after_post _ _ _ hch1 hwf1
  have hchan2 : channel_msgs (post_message w1 cid
      ("[storage] update " ++ name ++ ".json")
      [⟨name ++ ".json", ser_json (Json.obj C)⟩] false).2 cid =
      (⟨w1.nextMid, w1.botId, "[storage] update " ++ name ++ ".json",
        [⟨name ++ ".json", ser_json (Json.obj C)⟩], false⟩ : Message)
        :: channel_msgs w1 cid :=
    channel_msgs_after_post w1 cid _ _ _ hch1
  have hbot2 : (post_message w1 cid ("[storage] update " ++ name ++ ".json")
      [⟨name ++ ".json", ser_json (Json.obj C)⟩] false).2.botId = w1.botId := rfl
  generalize hw2eq : (post_message w1 cid ("[storage] update " ++ name ++ ".json") [⟨name ++ ".json", ser_json (Json.obj C)⟩] false).2 = w2 at hch2 hwf2 hchan2 hbot2 ⊢
  have hbot2w : w2.botId = w.botId := by rw [hbot2, hbot1]
  have hlen2 : (channel_msgs w2 cid).length ≤ 200 := by
    rw [hchan2]
    simp only [List.length_cons]
    have h1 := hstage1.1
    have h2 := hstage1.2.1
    omega
  have hvict : compact_scan w2.botId (name ++ ".json") 0 ((channel_msgs w2 cid).take 200)
      = ((channel_msgs w2 cid).filter (snap_msg w.botId (name ++ ".json"))).drop 3 := by
    rw [List.take_of_length_le hlen2, compact_scan_eq, hbot2w]
  rw [hvict]
  have hnd2 : ((channel_msgs w2 cid).map Message.mid).Nodup := nodup_mids hwf2.2
  have hsnapT : snap_msg w.botId (name ++ ".json")
      (⟨w1.nextMid, w1.botId, "[storage] update " ++ name ++ ".json",
        [⟨name ++ ".json", ser_json (Json.obj C)⟩], false⟩ : Message) = true := by
    simp [snap_msg, hbot1]
  have hF2 : (channel_msgs w2 cid).filter (snap_msg w.botId (name ++ ".json"))
      = (⟨w1.nextMid, w1.botId, "[storage] update " ++ name ++ ".json",
          [⟨name ++ ".json", ser_json (Json.obj C)⟩], false⟩ : Message)
        :: (channel_msgs w1 cid).filter (snap_msg w.botId (name ++ ".json")) := by
    rw [hchan2, List.filter_cons, if_pos hsnapT]
  refine ⟨delete_preserves_some _ hch2, wf_after_delete _ hwf2, ?_, ?_, ?_⟩
  · constructor
    · show snap_count (delete_messages w2 cid _).botId (name ++ ".json")
        (channel_msgs (delete_messages w2 cid _) cid) ≤ 3
      rw [delete_botId, hbot2w, channel_msgs_after_delete, snap_count,
        compact_kept hnd2 _, List.length_take]
      omega
    constructor
    · rw [delete_botId, hbot2w, channel_msgs_after_delete, snap_count,
        compact_kept hnd2 _, compact_len hnd2 _]
      have hK2 : ((channel_msgs w2 cid).filter (snap_msg w.botId (name ++ ".json"))).length
          = snap_count w.botId (name ++ ".json") (channel_msgs w1 cid) + 1 := by
        rw [hF2, List.length_cons, snap_count]
      have hL2 : (channel_msgs w2 cid).length = (channel_msgs w1 cid).length + 1 := by
        rw [hchan2, List.length_cons]
      have h1 := hstage1.2.1
      have hKL : snap_count w.botId (name ++ ".json") (channel_msgs w1 cid) ≤
          (channel_msgs w1 cid).length := List.length_filter_le _ _
      omega
    · rcases hstage1.2.2 with hcm | hslack
      · left
        obtain ⟨m, hm, hp, ha, hc, hatt⟩ := hcm
        refine ⟨m, ?_, hp, ?_, hc, hatt⟩
        · rw [channel_msgs_after_delete]
          have hmem2 : m ∈ channel_msgs w2 cid := by
            rw [hchan2]
            exact List.mem_cons_of_mem _ hm
          have hPm : snap_msg w.botId (name ++ ".json") m = false :=
            snap_msg_no_att hatt
          exact keep_of_not_snap hnd2 hmem2 hPm
        · rw [delete_botId, hbot2w]
          exact ha
      · right
        rw [delete_botId, hbot2w, channel_msgs_after_delete, snap_count,
          compact_kept hnd2 _, compact_len hnd2 _]
        have hK2 : ((channel_msgs w2 cid).filter (snap_msg w.botId (name ++ ".json"))).length
            = snap_count w.botId (name ++ ".json") (channel_msgs w1 cid) + 1 := by
          rw [hF2, List.length_cons, snap_count]
        have hL2 : (channel_msgs w2 cid).length = (channel_msgs w1 cid).length + 1 := by
          rw [hchan2, List.length_cons]
        have hKL : snap_count w.botId (name ++ ".json") (channel_msgs w1 cid) ≤
            (channel_msgs w1 cid).length := List.length_filter_le _ _
        omega
  · rw [delete_botId, hbot2w]
  · have hkeep : (((((⟨w1.nextMid, w1.botId,
          "[storage] update " ++ name ++ ".json",
          [⟨name ++ ".json", ser_json (Json.obj C)⟩], false⟩ : Message)
            :: channel_msgs w1 cid).filter
        (snap_msg w.botId (name ++ ".json"))).drop 3).all
        (fun v => v.mid != (⟨w1.nextMid, w1.botId,
          "[storage] update " ++ name ++ ".json",
          [⟨name ++ ".json", ser_json (Json.obj C)⟩], false⟩ : Message).mid)) = true := by
      rw [List.all_eq_true]
      intro v hv
      rw [List.filter_cons, if_pos hsnapT, List.drop_succ_cons] at hv
      have hvm : v ∈ channel_msgs w1 cid :=
        List.mem_of_mem_filter (List.mem_of_mem_drop hv)
      have := hwf1.1 v hvm
      show (v.mid != w1.nextMid) = true
      simp only [bne_iff_ne, ne_eq]
      omega
    rw [delete_botId, hbot2w, channel_msgs_after_delete, hchan2, List.filter_cons,
      if_pos hkeep, List.find?_cons_of_pos _ hsnapT]
    rw [show (⟨w1.nextMid, w1.botId, "[storage] update " ++ name ++ ".json",
        [⟨name ++ ".json", ser_json (Json.obj C)⟩], false⟩ : Message) =
      (⟨w1.nextMid, w.botId, "[storage] update " ++ name ++ ".json",
        [⟨name ++ ".json", ser_json (Json.obj C)⟩], false⟩ : Message) from by rw [hbot1]]

theorem save_fold_retention (name : String) (cid : Nat) :
    ∀ (Cs : List JObj) (w : World),
      (get_text_channel w cid).isSome → wf_channel w cid → compaction_inv w cid name →
      ∀ (Clast : JObj),
        snap_count ((Cs ++ [Clast]).foldl (fun acc c => save_one acc name cid c) w).botId
            (name ++ ".json")
            (channel_msgs ((Cs ++ [Clast]).foldl (fun acc c => save_one acc name cid c) w) cid)
          ≤ 3 ∧
        ∃ m : Message,
          (channel_msgs
              ((Cs ++ [Clast]).foldl (fun acc c => save_one acc name cid c) w) cid).find?
              (snap_msg ((Cs ++ [Clast]).foldl (fun acc c => save_one acc name cid c) w).botId
                (name ++ ".json")) = some m ∧
          m.attachments = [⟨name ++ ".json", ser_json (Json.obj Clast)⟩] := by
  intro Cs
  induction Cs with
  | nil =>
    intro w hch hwf hinv Clast
    simp only [List.nil_append, List.foldl_cons, List.foldl_nil]
    obtain ⟨_, _, h3, _, h5⟩ := save_one_step w name cid Clast hch hwf hinv
    exact ⟨h3.1, _, h5, rfl⟩
  | cons C0 Cs ih =>
    intro w hch hwf hinv Clast
    simp only [List.cons_append, List.foldl_cons]
    obtain ⟨h1, h2, h3, _, _⟩ := save_one_step w name cid C0 hch hwf hinv
    exact ih (save_one w name cid C0) h1 h2 h3 Clast

/-- **C5**.  Compaction retention: the scan walks the newest-first window of
up to 200 messages, keeps the first 3 bot-authored messages carrying the
dataset's attachment name and deletes every later match; since the new
snapshot is uploaded before any deletion, after any sequence of sequential
saves (in particular after k > 3 of them) at most 3 snapshot messages for
the dataset remain in the channel, and the newest-first scan finds the most
recent save's snapshot.  The invariant `compaction_inv` (at most 3 snapshots
and a channel short enough that the 200-message window covers it) holds for
every channel the store manages on its own and is preserved by each save. -/
theorem c5_compaction_retention (w : World) (name : String) (cid : Nat)
    (hch : (get_text_channel w cid).isSome) (hwf : wf_channel w cid)
    (hinv : compaction_inv w cid name) :
    (∀ msgs : List Message,
        compact_scan w.botId (name ++ ".json") 0 msgs =
          (msgs.filter (snap_msg w.botId (name ++ ".json"))).drop 3) ∧
    (∀ (Cs : List JObj) (Clast : JObj) (wk : World),
        wk = (Cs ++ [Clast]).foldl (fun acc c => save_one acc name cid c) w →
        snap_count wk.botId (name ++ ".json") (channel_msgs wk cid) ≤ 3 ∧
        ∃ m : Message,
          (channel_msgs wk cid).find? (snap_msg wk.botId (name ++ ".json")) = some m ∧
          m.attachments = [⟨name ++ ".json", ser_json (Json.obj Clast)⟩]) := by
  refine ⟨fun msgs => by rw [compact_scan_eq], ?_⟩
  intro Cs Clast wk hwk
  subst hwk
  exact save_fold_retention name cid Cs w hch hwf hinv Clast

/-- **C5** (witness).  The marked sample channel satisfies the well-formedness
and invariant hypotheses, so the retention bound holds for every sequence of
saves performed on it. -/
theorem c5_compaction_retention_witness :
    ((get_text_channel w_marked 6).isSome ∧ wf_channel w_marked 6 ∧
      compaction_inv w_marked 6 "warnings") ∧
    ((∀ msgs : List Message,
        compact_scan w_marked.botId ("warnings" ++ ".json") 0 msgs =
          (msgs.filter (snap_msg w_marked.botId ("warnings" ++ ".json"))).drop 3) ∧
    (∀ (Cs : List JObj) (Clast : JObj) (wk : World),
        wk = (Cs ++ [Clast]).foldl (fun acc c => save_one acc "warnings" 6 c) w_marked →
        snap_count wk.botId ("warnings" ++ ".json") (channel_msgs wk 6) ≤ 3 ∧
        ∃ m : Message,
          (channel_msgs wk 6).find? (snap_msg wk.botId ("warnings" ++ ".json")) = some m ∧
          m.attachments = [⟨"warnings" ++ ".json", ser_json (Json.obj Clast)⟩])) :=
  ⟨⟨by decide, ⟨by decide, by decide⟩, ⟨by decide, by decide, Or.inl (by decide)⟩⟩,
    c5_compaction_retention w_marked "warnings" 6 (by decide) ⟨by decide, by decide⟩
      ⟨by decide, by decide, Or.inl (by decide)⟩⟩
